import Mathlib

/-!
# Verification of the OTA firmware-update subsystem

A shallow embedding, in Lean 4, of the repository's OTA (over-the-air)
firmware-update pipeline: the `FirmwareVersionManager` catalog, the
`FirmwareVerifier`, the `FirmwareDownloader` and the `OtaManager`
orchestrator, together with theorems about them.

Modelling conventions:
* A JS `Buffer` is a `List Nat` of byte values.
* JS `Map` objects are association lists with `Map.set` semantics
  (replace-in-place for an existing key, append otherwise), preserving
  insertion order as JS `Map` iteration does.
* Optional JS fields are `Option` values; JS truthiness on them is made
  explicit (`none`, `some 0` and `some ""` are falsy).
* The external collaborators (the HTTP transport and the `md5`/`sha256`
  digest primitives) are parameters of the embedding: a `NetOracle`
  stands for `fetch` and two functions `Bytes → String` stand for the
  trusted digest primitive, exactly as the subsystem treats them.
* `async` methods that can throw are embedded as functions returning
  `Except String`, paired with an explicit output state and, for the
  orchestrator, a trace of observable events (session writes, integrity
  verifications, and byte buffers delivered to the caller).
-/

/-- A JS `Buffer`: a list of byte values. -/
abbrev Bytes := List Nat

/-- Association-list lookup with JS `Map.get` semantics (first matching key). -/
def jsMapGet {α : Type} (m : List (String × α)) (k : String) : Option α :=
  match m with
  | [] => none
  | (k', v) :: rest => if k' = k then some v else jsMapGet rest k

/-- Association-list update with JS `Map.set` semantics: replace the value in
place when the key is present, append otherwise (insertion order kept). -/
def jsMapSet {α : Type} (m : List (String × α)) (k : String) (v : α) :
    List (String × α) :=
  match m with
  | [] => [(k, v)]
  | (k', v') :: rest =>
      if k' = k then (k', v) :: rest else (k', v') :: jsMapSet rest k v

/-- Association-list deletion with JS `Map.delete` semantics. -/
def jsMapDel {α : Type} (m : List (String × α)) (k : String) :
    List (String × α) :=
  match m with
  | [] => []
  | (k', v') :: rest =>
      if k' = k then rest else (k', v') :: jsMapDel rest k

/-- JS truthiness of an optional number (`undefined` and `0` are falsy). -/
def truthyNum : Option Nat → Bool
  | some n => n != 0
  | none => false

/-- JS truthiness of an optional string (`undefined` and `""` are falsy). -/
def truthyStr : Option String → Bool
  | some s => s != ""
  | none => false

/-- The `FirmwareVersion` record of `ota/types` (release timestamps are
modelled as their `getTime()` millisecond values). -/
structure FirmwareVersion where
  version : String
  description : Option String := none
  releaseDate : Option Int := none
  fileSize : Option Nat := none
  fileUrl : Option String := none
  checksum : Option String := none
  signature : Option String := none
  forceUpdate : Option Bool := none
  supportedDevices : Option (List String) := none
deriving Repr, DecidableEq

/-! ## FirmwareVersionManager (the version catalog) -/

/-- The catalog's `versions: Map<string, FirmwareVersion>`. -/
abbrev VersionMap := List (String × FirmwareVersion)

/-- `registerVersion(version, firmware)`: idempotent upsert. -/
def registerVersion (m : VersionMap) (version : String) (fw : FirmwareVersion) :
    VersionMap :=
  jsMapSet m version fw

/-- `getVersion(version)`: map lookup, `null` as `none`. -/
def getVersion (m : VersionMap) (version : String) : Option FirmwareVersion :=
  jsMapGet m version

/-- `getAllVersions()`: the catalog's values in insertion order. -/
def getAllVersions (m : VersionMap) : List FirmwareVersion :=
  m.map Prod.snd

/-- `a.releaseDate?.getTime() || 0`: a missing timestamp sorts as 0. -/
def dateMs (d : Option Int) : Int :=
  d.getD 0

/-- `getLatestVersion()`: sort by release date descending (stable sort, as
ES2019 requires) and take the head; equivalently, the first version whose
release date is maximal. -/
def getLatestVersion (m : VersionMap) : Option FirmwareVersion :=
  match getAllVersions m with
  | [] => none
  | v :: vs =>
      some (vs.foldl (fun best x =>
        if dateMs x.releaseDate > dateMs best.releaseDate then x else best) v)

/-! ### compareVersions

The source computes `version.split('.').map(Number)` and then walks the
segments with `v1Parts[i] || 0` and `<` / `>` on the results.  `Number` is
a JS primitive; it is embedded below for the strings this program applies
it to — segments of a split on `'.'`, which therefore never contain a dot
— following ECMA-262's `StringNumericLiteral` grammar: whitespace
trimming, an optional sign, `Infinity`, decimal digits with an optional
exponent, and the unsigned `0x`/`0o`/`0b` radix forms; everything else is
`NaN`.  A finite value is kept exactly, as `mantissa / 10 ^ power`,
instead of as an IEEE-754 double, so the one place the embedding can part
ways with an engine is double rounding and overflow (segments whose value
is not an integer below 2^53).  `segFaithful` marks the segments on which
the embedding provably coincides with the engine — digit runs below 2^53,
which doubles represent and compare exactly, and `NaN` segments — and the
version-comparison theorems below are stated on that domain. -/

/-- Numeric value of a list of decimal digit characters. -/
def natOfDigits (cs : List Char) : Nat :=
  cs.foldl (fun n c => 10 * n + (c.toNat - 48)) 0

/-- JS `String.prototype.split` with a single-character separator, keeping
empty segments (so `"".split('.') = [""]` and `"1.".split('.') = ["1",""]`). -/
def splitSegs (sep : Char) : List Char → List (List Char)
  | [] => [[]]
  | c :: rest =>
      match splitSegs sep rest with
      | [] => [[]]
      | seg :: segs =>
          if c = sep then [] :: seg :: segs else (c :: seg) :: segs

/-- The whitespace code points `Number` trims: `WhiteSpace` (TAB, VT, FF,
SP, NBSP, ZWNBSP and the Unicode `Zs` class) and `LineTerminator` (LF,
CR, LS, PS). -/
def jsWhitespace (c : Char) : Bool :=
  c.toNat = 0x9 || c.toNat = 0xA || c.toNat = 0xB || c.toNat = 0xC ||
    c.toNat = 0xD || c.toNat = 0x20 || c.toNat = 0xA0 || c.toNat = 0x1680 ||
    (0x2000 ≤ c.toNat && c.toNat ≤ 0x200A) || c.toNat = 0x2028 ||
    c.toNat = 0x2029 || c.toNat = 0x202F || c.toNat = 0x205F ||
    c.toNat = 0x3000 || c.toNat = 0xFEFF

/-- Drop the trailing characters satisfying `p`. -/
def dropTrailing (p : Char → Bool) (cs : List Char) : List Char :=
  (cs.reverse.dropWhile p).reverse

/-- Trim the whitespace `Number` ignores around a numeric literal. -/
def jsTrim (cs : List Char) : List Char :=
  dropTrailing jsWhitespace (cs.dropWhile jsWhitespace)

/-- The result of `Number` on a string: `NaN`, `±Infinity`, or the finite
value `num / 10 ^ den10`, kept exact (see the section comment for the
rounding caveat). -/
inductive JsNum where
  | nan
  | posInf
  | negInf
  | fin (num : Int) (den10 : Nat)
deriving Repr, DecidableEq

/-- Unary minus on a parsed literal. -/
def jsNeg : JsNum → JsNum
  | .nan => .nan
  | .posInf => .negInf
  | .negInf => .posInf
  | .fin n d => .fin (-n) d

/-- Digit value in a radix-`b` literal, `none` when invalid. -/
def radixDigit (b : Nat) (c : Char) : Option Nat :=
  let v :=
    if '0' ≤ c && c ≤ '9' then some (c.toNat - 48)
    else if 'a' ≤ c && c ≤ 'f' then some (c.toNat - 87)
    else if 'A' ≤ c && c ≤ 'F' then some (c.toNat - 55)
    else none
  match v with
  | some n => if n < b then some n else none
  | none => none

/-- A `0x`/`0o`/`0b` integer literal body: at least one digit, all in
range for the base. -/
def parseRadix (b : Nat) (cs : List Char) : JsNum :=
  if cs.isEmpty then .nan
  else
    match cs.foldl
        (fun acc c =>
          match acc, radixDigit b c with
          | some n, some v => some (b * n + v)
          | _, _ => none) (some 0) with
    | some n => .fin n 0
    | none => .nan

/-- The exponent of a decimal literal: decimal digits, optionally signed. -/
def parseSignedInt (cs : List Char) : Option Int :=
  match cs with
  | '+' :: ds =>
      if !ds.isEmpty && ds.all Char.isDigit then some (natOfDigits ds)
      else none
  | '-' :: ds =>
      if !ds.isEmpty && ds.all Char.isDigit then
        some (-(natOfDigits ds : Int))
      else none
  | ds =>
      if !ds.isEmpty && ds.all Char.isDigit then some (natOfDigits ds)
      else none

/-- Value of `DecimalDigits ExponentPart`: `digits * 10 ^ exponent`, kept
exact. -/
def decValue (ds : List Char) (k : Int) : JsNum :=
  if 0 ≤ k then .fin (natOfDigits ds * 10 ^ k.toNat) 0
  else .fin (natOfDigits ds) (-k).toNat

/-- `StrUnsignedDecimalLiteral` on a dot-free string: `Infinity`, or
decimal digits with an optional exponent. -/
def parseUnsignedDec (t : List Char) : JsNum :=
  if t = ['I', 'n', 'f', 'i', 'n', 'i', 't', 'y'] then .posInf
  else
    let ds := t.takeWhile Char.isDigit
    match t.dropWhile Char.isDigit with
    | [] => if ds.isEmpty then .nan else .fin (natOfDigits ds) 0
    | c :: es =>
        if ds.isEmpty then .nan
        else if c = 'e' || c = 'E' then
          match parseSignedInt es with
          | some k => decValue ds k
          | none => .nan
        else .nan

/-- `StrNumericLiteral` after trimming: the empty string is `+0`, then an
optionally signed decimal literal or an unsigned radix literal. -/
def jsNumberTrimmed : List Char → JsNum
  | [] => .fin 0 0
  | c :: r =>
      if c = '+' then parseUnsignedDec r
      else if c = '-' then jsNeg (parseUnsignedDec r)
      else if c = '0' then
        match r with
        | d :: r2 =>
            if d = 'x' ∨ d = 'X' then parseRadix 16 r2
            else if d = 'o' ∨ d = 'O' then parseRadix 8 r2
            else if d = 'b' ∨ d = 'B' then parseRadix 2 r2
            else parseUnsignedDec (c :: d :: r2)
        | [] => parseUnsignedDec (c :: ([] : List Char))
      else parseUnsignedDec (c :: r)

/-- `Number` on a (dot-free) string. -/
def jsNumber (cs : List Char) : JsNum :=
  jsNumberTrimmed (jsTrim cs)

/-- A segment value after `|| 0`: `NaN` and `±0` are falsy and replaced by
`+0`, everything else is kept — no `NaN` reaches a comparison. -/
inductive JsVal where
  | negInf
  | fin (num : Int) (den10 : Nat)
  | posInf
deriving Repr, DecidableEq

/-- `x || 0` on a parsed segment. -/
def orZero : JsNum → JsVal
  | .nan => .fin 0 0
  | .posInf => .posInf
  | .negInf => .negInf
  | .fin n d => .fin n d

/-- `vParts[i] || 0`: an out-of-range index (`undefined`) is falsy too. -/
def segAtJs (parts : List JsNum) (i : Nat) : JsVal :=
  match parts.get? i with
  | some v => orZero v
  | none => .fin 0 0

/-- `<` on the comparison values: `-Infinity` below everything,
`+Infinity` above everything, finite values by cross-multiplying the
exact powers of ten. -/
def jvLt : JsVal → JsVal → Bool
  | .negInf, .negInf => false
  | .negInf, _ => true
  | .fin _ _, .negInf => false
  | .fin a da, .fin b db => decide (a * 10 ^ db < b * 10 ^ da)
  | .fin _ _, .posInf => true
  | .posInf, _ => false

/-- The `for (let i = 0; i < maxLength; i++)` loop of `compareVersions`
(`v1Part > v2Part` is `v2Part < v1Part`), with the remaining iteration
count as fuel. -/
def compareLoop (p1 p2 : List JsNum) : Nat → Nat → Int
  | _, 0 => 0
  | i, fuel + 1 =>
      let a := segAtJs p1 i
      let b := segAtJs p2 i
      if jvLt b a then 1 else if jvLt a b then -1
      else compareLoop p1 p2 (i + 1) fuel

/-- `compareVersions(version1, version2)`: split on `.`, map `Number`,
compare segment-wise with missing/`NaN` segments as `0`. -/
def compareVersions (version1 version2 : String) : Int :=
  let p1 := (splitSegs '.' version1.data).map jsNumber
  let p2 := (splitSegs '.' version2.data).map jsNumber
  compareLoop p1 p2 0 (max p1.length p2.length)

/-- The segments on which the exact embedding provably agrees with an
engine's doubles: digit runs below `2 ^ 53` (exactly representable and
exactly compared) and segments `Number` rejects (`NaN`, coerced to `0` by
`|| 0`). -/
def segFaithful (cs : List Char) : Bool :=
  (cs.all Char.isDigit && natOfDigits cs < 2 ^ 53) || jsNumber cs == .nan

/-- Every segment of the version string is in the faithful domain. -/
def versionFaithful (s : String) : Bool :=
  (splitSegs '.' s.data).all segFaithful

/-- Result record of `needsUpdate`. -/
structure NeedsUpdateResult where
  needsUpdate : Bool
  latestVersion : Option FirmwareVersion := none
deriving Repr, DecidableEq

/-- `needsUpdate(currentVersion, targetVersion?)`. -/
def needsUpdate (m : VersionMap) (currentVersion : String)
    (targetVersion : Option String) : NeedsUpdateResult :=
  let latest := match targetVersion with
    | some t => getVersion m t
    | none => getLatestVersion m
  match latest with
  | none => { needsUpdate := false }
  | some l =>
      { needsUpdate := compareVersions currentVersion l.version < 0,
        latestVersion := some l }


/-! ## FirmwareVerifier

The digest primitive (`createHash('md5' | 'sha256')`) is external; the
verifier is therefore parameterised by the two digest functions
`md5, sha256 : Bytes → String` (full-buffer hex digests). -/

/-- JS `toLowerCase` on one character (ASCII letters; digest strings are
hex, so nothing beyond ASCII arises here). -/
def charLower (c : Char) : Char :=
  if 'A' ≤ c && c ≤ 'Z' then Char.ofNat (c.toNat + 32) else c

/-- JS `String.prototype.toLowerCase`. -/
def strLower (s : String) : String :=
  ⟨s.data.map charLower⟩

/-- `verifyChecksum(firmwareData, expectedChecksum)`: infer the algorithm
from the expected digest's length (32 hex chars is md5, otherwise sha256),
compute, compare case-insensitively. -/
def verifyChecksum (md5 sha256 : Bytes → String)
    (firmwareData : Bytes) (expectedChecksum : String) : Bool :=
  let calculatedChecksum :=
    if expectedChecksum.length = 32 then md5 firmwareData
    else sha256 firmwareData
  strLower calculatedChecksum == strLower expectedChecksum

/-- The base64 alphabet used by `isValidSignatureFormat`'s regular
expression `^[A-Za-z0-9+/=]+$`. -/
def isBase64Char (c : Char) : Bool :=
  ('A' ≤ c && c ≤ 'Z') || ('a' ≤ c && c ≤ 'z') || ('0' ≤ c && c ≤ '9') ||
    c = '+' || c = '/' || c = '='

/-- `isValidSignatureFormat(signature)`: non-empty and drawn from the
base64 alphabet. -/
def isValidSignatureFormat (signature : String) : Bool :=
  signature.length > 0 && signature.data.all isBase64Char

/-- `verifySignature(firmwareData, signature, publicKey?)`.  Without a key
the source performs the structural check only.  With a key the source — per
its own comment a simplified placeholder — builds an `RSA-SHA256` verifier
object but never consults the key or the signature and `return true`
unconditionally. -/
def verifySignature (_firmwareData : Bytes) (signature : String)
    (publicKey : Option String) : Bool :=
  match publicKey with
  | none => isValidSignatureFormat signature
  | some _ => true

/-- The `{valid, errors}` record returned by `verifyIntegrity`. -/
structure VerificationResult where
  valid : Bool
  errors : List String
deriving Repr, DecidableEq

/-- `verifyIntegrity(firmwareData, firmwareVersion)`: the size check runs
when `firmwareVersion.fileSize` is truthy (present and non-zero), the
checksum check when `checksum` is truthy, the signature check when
`signature` is truthy (the call site passes no public key); each failed
check appends one error string; `valid = errors.length == 0`. -/
def verifyIntegrity (md5 sha256 : Bytes → String)
    (firmwareData : Bytes) (fw : FirmwareVersion) : VerificationResult :=
  let sizeErrors : List String :=
    if truthyNum fw.fileSize && firmwareData.length != fw.fileSize.getD 0 then
      ["File size mismatch: expected " ++ toString (fw.fileSize.getD 0) ++
        ", got " ++ toString firmwareData.length]
    else []
  let checksumErrors : List String :=
    if truthyStr fw.checksum &&
        !verifyChecksum md5 sha256 firmwareData (fw.checksum.getD "") then
      ["Checksum verification failed"]
    else []
  let signatureErrors : List String :=
    if truthyStr fw.signature &&
        !verifySignature firmwareData (fw.signature.getD "") none then
      ["Signature verification failed"]
    else []
  let errors := sizeErrors ++ checksumErrors ++ signatureErrors
  { valid := errors.length == 0, errors := errors }

/-! ## FirmwareDownloader

The HTTP transport is external: a `NetOracle` maps a URL to either a
transport failure (HTTP error status, abort on timeout, null body — all of
which `fetchWithProgress` surfaces as a thrown error) or a response carrying
the `content-length` header value (`0` when the header is missing) and the
byte chunks produced by the body reader. -/

/-- A successful `fetch` response as `fetchWithProgress` consumes it. -/
structure NetResponse where
  total : Nat
  chunks : List Bytes
deriving Repr, DecidableEq

/-- The external HTTP transport. -/
abbrev NetOracle := String → Except String NetResponse

/-- The `DownloadProgress` callback payload. -/
structure DownloadProgress where
  downloaded : Nat
  total : Nat
  percentage : Nat
deriving Repr, DecidableEq

/-- `Math.round(num / den)` for non-negative rationals. -/
def jsRound (num den : Nat) : Nat :=
  (2 * num + den) / (2 * den)

/-- Cumulative byte counts of the chunk list (`downloaded` after each
`reader.read()` iteration). -/
def cumLengths (acc : Nat) : List Bytes → List Nat
  | [] => []
  | c :: cs => (acc + c.length) :: cumLengths (acc + c.length) cs

/-- The progress events `fetchWithProgress` delivers, one per chunk, with
`percentage = Math.round((downloaded / total) * 100)`; none are delivered
when the content length is unknown (`total = 0`). -/
def progressEvents (total : Nat) (chunks : List Bytes) : List DownloadProgress :=
  if total > 0 then
    (cumLengths 0 chunks).map
      (fun downloaded => ⟨downloaded, total, jsRound (downloaded * 100) total⟩)
  else []

/-- The downloader's `downloadCache: Map<string, Buffer>`. -/
abbrev Cache := List (String × Bytes)

deriving instance DecidableEq for Except

/-- Everything one `download` call produces: the returned buffer or thrown
error, the cache afterwards, the progress events delivered to `onProgress`,
and whether a network fetch was performed. -/
structure DlOutcome where
  result : Except String Bytes
  cache : Cache
  events : List DownloadProgress
  fetched : Bool
deriving Repr, DecidableEq

/-- `download(options)`: serve from the per-URL cache when possible
(reporting a single 100% progress event when a callback is supplied),
otherwise fetch, report per-chunk progress, and populate the cache. -/
def download (net : NetOracle) (cache : Cache) (url : String)
    (hasOnProgress : Bool) : DlOutcome :=
  match jsMapGet cache url with
  | some cached =>
      { result := .ok cached, cache := cache,
        events :=
          if hasOnProgress then [⟨cached.length, cached.length, 100⟩] else [],
        fetched := false }
  | none =>
      match net url with
      | .error e =>
          { result := .error ("Firmware download failed: " ++ e),
            cache := cache, events := [], fetched := true }
      | .ok resp =>
          let buffer := resp.chunks.flatten
          { result := .ok buffer,
            cache := jsMapSet cache url buffer,
            events :=
              if hasOnProgress then progressEvents resp.total resp.chunks
              else [],
            fetched := true }

/-- `clearCache()`: evict every cached artifact. -/
def clearCache (_cache : Cache) : Cache := []

/-! ## OtaManager (the update orchestrator) -/

/-- The `OtaUpdateStatus` enum. -/
inductive OtaUpdateStatus where
  | Idle
  | Checking
  | Downloading
  | Verifying
  | Installing
  | Completed
  | Failed
deriving Repr, DecidableEq

/-- The per-device `OtaUpdateInfo` session record (timestamps as
`getTime()` millisecond values). -/
structure OtaUpdateInfo where
  deviceId : String
  currentVersion : String
  targetVersion : Option String := none
  status : OtaUpdateStatus
  progress : Option Nat := none
  error : Option String := none
  startedAt : Option Int := none
  completedAt : Option Int := none
deriving Repr, DecidableEq

/-- The mutable state an `OtaManager` owns: the catalog of its version
manager, its downloader's cache, and the `updates: Map<string, OtaUpdateInfo>`
session registry. -/
structure OtaState where
  versions : VersionMap
  cache : Cache
  updates : List (String × OtaUpdateInfo)
deriving Repr, DecidableEq

/-- A fresh `new OtaManager()`. -/
def initialOtaState : OtaState :=
  { versions := [], cache := [], updates := [] }

/-- The externally observable events of one orchestrator operation:
every `updates.set` (a session write), every `verifyIntegrity` call with
its inputs and resulting error list, and every byte buffer delivered
(returned) to the caller. -/
inductive OtaEvent where
  | write (deviceId : String) (info : OtaUpdateInfo)
  | verified (deviceId : String) (bytes : Bytes) (fw : FirmwareVersion)
      (errors : List String)
  | delivered (deviceId : String) (bytes : Bytes)
deriving Repr, DecidableEq

/-- The external collaborators an `OtaManager` is wired to: the HTTP
transport and the digest primitives. -/
structure OtaEnv where
  net : NetOracle
  md5 : Bytes → String
  sha256 : Bytes → String

/-- `checkForUpdate(deviceId, currentVersion)`: overwrite the session with a
Checking record, consult the catalog, settle on Idle (recording
`targetVersion` when an update is available) and return the resolved latest
version or `null`.  The source's catch branch is unreachable here because
the catalog operations are pure and total. -/
def checkForUpdate (s : OtaState) (deviceId currentVersion : String)
    (now : Int) : Option FirmwareVersion × OtaState × List OtaEvent :=
  let info0 : OtaUpdateInfo :=
    { deviceId := deviceId, currentVersion := currentVersion,
      status := .Checking, startedAt := some now }
  let s1 : OtaState := { s with updates := jsMapSet s.updates deviceId info0 }
  let result := needsUpdate s.versions currentVersion none
  let info1 : OtaUpdateInfo :=
    if result.needsUpdate && result.latestVersion.isSome then
      { info0 with
        status := .Idle
        targetVersion := result.latestVersion.map (·.version) }
    else
      { info0 with status := .Idle }
  let s2 : OtaState := { s1 with updates := jsMapSet s1.updates deviceId info1 }
  (result.latestVersion, s2,
    [OtaEvent.write deviceId info0, OtaEvent.write deviceId info1])

/-- The successive session records written by the `onProgress` callback of
`downloadFirmware` (each tick sets `progress` and re-`set`s the session). -/
def progressInfos (info : OtaUpdateInfo) :
    List DownloadProgress → List OtaUpdateInfo
  | [] => []
  | e :: es =>
      let info' := { info with progress := some e.percentage }
      info' :: progressInfos info' es

/-- The session value left in the registry after a sequence of writes:
the last write, or the given record when nothing was written. -/
def lastWrite (info : OtaUpdateInfo) (writes : List OtaUpdateInfo) :
    OtaUpdateInfo :=
  writes.foldl (fun _ i => i) info

/-- `downloadFirmware(deviceId, firmwareVersion)`: create-or-fetch the
session, advance it to Downloading with progress 0 and the target version,
check the URL precondition (throwing leaves the session as just written),
download with per-tick progress writes, advance to Verifying at the fixed
90% checkpoint, verify integrity, and finish Completed at 100% with the
bytes returned — or Failed with the error mirrored into the session and
rethrown.  A thrown verification failure is caught again by the method's
own catch, which overwrites the session error with the prefixed message. -/
def downloadFirmware (env : OtaEnv) (s : OtaState) (deviceId : String)
    (fw : FirmwareVersion) (now : Int) :
    Except String Bytes × OtaState × List OtaEvent :=
  let info0 : OtaUpdateInfo :=
    (jsMapGet s.updates deviceId).getD
      { deviceId := deviceId, currentVersion := "", status := .Idle }
  let info1 : OtaUpdateInfo :=
    { info0 with
      status := .Downloading
      progress := some 0
      targetVersion := some fw.version }
  let s1 : OtaState := { s with updates := jsMapSet s.updates deviceId info1 }
  if !truthyStr fw.fileUrl then
    (.error "Firmware file URL is not specified", s1,
      [OtaEvent.write deviceId info1])
  else
    let dl := download env.net s1.cache (fw.fileUrl.getD "") true
    let ticks := progressInfos info1 dl.events
    let infoDl := lastWrite info1 ticks
    let s2 : OtaState :=
      { s1 with
        cache := dl.cache
        updates := jsMapSet s1.updates deviceId infoDl }
    let evs0 := OtaEvent.write deviceId info1 ::
      ticks.map (OtaEvent.write deviceId)
    match dl.result with
    | .error e =>
        let infoF := { infoDl with status := .Failed, error := some e }
        (.error e,
          { s2 with updates := jsMapSet s2.updates deviceId infoF },
          evs0 ++ [OtaEvent.write deviceId infoF])
    | .ok buffer =>
        let infoV := { infoDl with status := .Verifying, progress := some 90 }
        let s3 : OtaState :=
          { s2 with updates := jsMapSet s2.updates deviceId infoV }
        let verification := verifyIntegrity env.md5 env.sha256 buffer fw
        if verification.valid then
          let infoC :=
            { infoV with
              status := .Completed
              progress := some 100
              completedAt := some now }
          (.ok buffer,
            { s3 with updates := jsMapSet s3.updates deviceId infoC },
            evs0 ++ [OtaEvent.write deviceId infoV,
              OtaEvent.verified deviceId buffer fw verification.errors,
              OtaEvent.write deviceId infoC,
              OtaEvent.delivered deviceId buffer])
        else
          let joined := String.intercalate ", " verification.errors
          let infoF1 := { infoV with status := .Failed, error := some joined }
          let thrown := "Firmware verification failed: " ++ joined
          let infoF2 := { infoF1 with error := some thrown }
          (.error thrown,
            { s3 with updates :=
                jsMapSet (jsMapSet s3.updates deviceId infoF1) deviceId infoF2 },
            evs0 ++ [OtaEvent.write deviceId infoV,
              OtaEvent.verified deviceId buffer fw verification.errors,
              OtaEvent.write deviceId infoF1,
              OtaEvent.write deviceId infoF2])

/-- `performUpdate(deviceId, currentVersion)`: `checkForUpdate`, then
download whatever latest version it returned, or throw
`'No update available'` when it returned `null`. -/
def performUpdate (env : OtaEnv) (s : OtaState)
    (deviceId currentVersion : String) (now : Int) :
    Except String Bytes × OtaState × List OtaEvent :=
  let (latest, s1, ev1) := checkForUpdate s deviceId currentVersion now
  match latest with
  | none => (.error "No update available", s1, ev1)
  | some fw =>
      let (r, s2, ev2) := downloadFirmware env s1 deviceId fw now
      (r, s2, ev1 ++ ev2)

/-- `getUpdateStatus(deviceId)`: the session snapshot or `null`. -/
def getUpdateStatus (s : OtaState) (deviceId : String) : Option OtaUpdateInfo :=
  jsMapGet s.updates deviceId

/-- `cancelUpdate(deviceId)`: only a session in Downloading status is
marked Failed with a cancellation message. -/
def cancelUpdate (s : OtaState) (deviceId : String) :
    OtaState × List OtaEvent :=
  match jsMapGet s.updates deviceId with
  | some info =>
      if info.status = .Downloading then
        let info' :=
          { info with
            status := .Failed
            error := some "Update cancelled by user" }
        ({ s with updates := jsMapSet s.updates deviceId info' },
          [OtaEvent.write deviceId info'])
      else (s, [])
  | none => (s, [])

/-- `clearUpdate(deviceId)`: remove the session. -/
def clearUpdate (s : OtaState) (deviceId : String) : OtaState :=
  { s with updates := jsMapDel s.updates deviceId }

/-- One call against the manager (or its version manager / downloader):
the operations a caller can interleave. -/
inductive OtaOp where
  | register (version : String) (fw : FirmwareVersion)
  | check (deviceId currentVersion : String) (now : Int)
  | dlfw (deviceId : String) (fw : FirmwareVersion) (now : Int)
  | perform (deviceId currentVersion : String) (now : Int)
  | cancel (deviceId : String)
  | clear (deviceId : String)
  | evictCache
deriving Repr, DecidableEq

/-- Execute one operation, returning the new state and its event list. -/
def runOp (env : OtaEnv) (s : OtaState) : OtaOp → OtaState × List OtaEvent
  | .register v fw => ({ s with versions := registerVersion s.versions v fw }, [])
  | .check d cv now => ((checkForUpdate s d cv now).2.1,
      (checkForUpdate s d cv now).2.2)
  | .dlfw d fw now => ((downloadFirmware env s d fw now).2.1,
      (downloadFirmware env s d fw now).2.2)
  | .perform d cv now => ((performUpdate env s d cv now).2.1,
      (performUpdate env s d cv now).2.2)
  | .cancel d => cancelUpdate s d
  | .clear d => (clearUpdate s d, [])
  | .evictCache => ({ s with cache := clearCache s.cache }, [])

/-- Execute a sequence of operations, concatenating the event traces. -/
def runOps (env : OtaEnv) (s : OtaState) : List OtaOp → OtaState × List OtaEvent
  | [] => (s, [])
  | op :: ops =>
      let (s1, ev1) := runOp env s op
      let (s2, ev2) := runOps env s1 ops
      (s2, ev1 ++ ev2)

/-! ## Concrete fixtures

A small deterministic world used by the concrete witnesses and
counterexamples below: a transport that serves one four-byte firmware
artifact at `http://fw`, and digest primitives that are constant (the
claims exercised on these fixtures do not involve checksums, or involve
only mismatching ones). -/

/-- A constant stand-in digest primitive. -/
def hashConst (out : String) : Bytes → String := fun _ => out

/-- A transport serving `[1, 2, 3, 4]` (content length 4) at `http://fw`. -/
def netSample : NetOracle := fun url =>
  if url = "http://fw" then .ok { total := 4, chunks := [[1, 2, 3, 4]] }
  else .error "ENOTFOUND"

/-- Sample environment. -/
def envSample : OtaEnv :=
  { net := netSample, md5 := hashConst "aa", sha256 := hashConst "aa" }

/-- A registered release with a download URL and no declared size,
checksum or signature. -/
def fwSample : FirmwareVersion :=
  { version := "1.0.1", releaseDate := some 10, fileUrl := some "http://fw" }

/-- Register `1.0.1`, then `performUpdate("dev", "1.0.0")`. -/
def opsSample : List OtaOp :=
  [.register "1.0.1" fwSample, .perform "dev" "1.0.0" 7]

/-- The event trace of the sample run. -/
def traceSample : List OtaEvent :=
  (runOps envSample initialOtaState opsSample).2

/-! ## Reference comparators for the version-comparison claim

Two independently written segment-wise comparators: one following the
claim's wording (parse each segment's *leading digits*, so a `-suffix` is
ignored), one following the behaviour of `Number` plus `|| 0` (a segment
that is not a pure digit run counts as `0`). -/

/-- Segment-wise three-way comparison of numeric segment lists, missing
trailing segments reading as `0`; the first unequal pair decides. -/
def cmpSegs : List Nat → List Nat → Int
  | [], ys => if ys.any (fun y => 0 < y) then -1 else 0
  | x :: xs, ys =>
      if x > ys.headD 0 then 1
      else if x < ys.headD 0 then -1
      else cmpSegs xs ys.tail

/-- The claim's segment value: the numeric value of the leading digit run
(`"2-beta"` reads as `2`). -/
def claimSegVal (cs : List Char) : Nat :=
  natOfDigits (cs.takeWhile Char.isDigit)

/-- `compareVersions` as the claim describes it. -/
def claimCompare (a b : String) : Int :=
  cmpSegs ((splitSegs '.' a.data).map claimSegVal)
    ((splitSegs '.' b.data).map claimSegVal)

/-- The amended segment value: a pure digit run reads as its value, any
other segment (`"2-beta"` included) reads as `0` (JS `Number` gives `NaN`,
which `|| 0` coerces to `0`). -/
def amendedSegVal (cs : List Char) : Nat :=
  if cs.all Char.isDigit then natOfDigits cs else 0

/-- `compareVersions` as the amended claim describes it. -/
def amendedCompare (a b : String) : Int :=
  cmpSegs ((splitSegs '.' a.data).map amendedSegVal)
    ((splitSegs '.' b.data).map amendedSegVal)

/-- The comparison loop specialised to the faithful domain: plain natural
segment values, missing segments as `0`. -/
def cmpLoopNat (v1 v2 : List Nat) : Nat → Nat → Int
  | _, 0 => 0
  | i, fuel + 1 =>
      if v1.getD i 0 > v2.getD i 0 then 1
      else if v1.getD i 0 < v2.getD i 0 then -1
      else cmpLoopNat v1 v2 (i + 1) fuel

/-! ## Trace-shape definitions used by the theorems below -/

/-- Folding any sequence of later `download` calls over the cache. -/
def runDownloads (net : NetOracle) (cache : Cache) :
    List (String × Bool) → Cache
  | [] => cache
  | (u, cb) :: rest => runDownloads net (download net cache u cb).cache rest

/-- The session snapshot written by the 100% download tick of the sample
run. -/
def infoTick100 : OtaUpdateInfo :=
  { deviceId := "dev", currentVersion := "1.0.0",
    targetVersion := some "1.0.1", status := .Downloading,
    progress := some 100, startedAt := some 7 }

/-- The Verifying-checkpoint snapshot of the sample run. -/
def infoVerify90 : OtaUpdateInfo :=
  { deviceId := "dev", currentVersion := "1.0.0",
    targetVersion := some "1.0.1", status := .Verifying,
    progress := some 90, startedAt := some 7 }

/-- The Completed snapshot of the sample run. -/
def infoDone : OtaUpdateInfo :=
  { deviceId := "dev", currentVersion := "1.0.0",
    targetVersion := some "1.0.1", status := .Completed,
    progress := some 100, startedAt := some 7, completedAt := some 7 }

/-- The session records written for a device in an event trace. -/
def writeInfos (d : String) : List OtaEvent → List OtaUpdateInfo
  | [] => []
  | OtaEvent.write d' i :: rest =>
      if d' = d then i :: writeInfos d rest else writeInfos d rest
  | OtaEvent.verified _ _ _ _ :: rest => writeInfos d rest
  | OtaEvent.delivered _ _ :: rest => writeInfos d rest

/-- A session's progress value (`undefined` reads as 0). -/
def progOf (i : OtaUpdateInfo) : Nat := i.progress.getD 0

/-- One step of the amended progress discipline: progress does not
decrease, except at the fixed Verifying/90 checkpoint write. -/
def ProgStep (a b : OtaUpdateInfo) : Prop :=
  progOf a ≤ progOf b ∨
    (b.status = OtaUpdateStatus.Verifying ∧ b.progress = some 90)

/-- A catalog holding only release `1.0.0`, older than the device below. -/
def fwOld : FirmwareVersion :=
  { version := "1.0.0", releaseDate := some 1, fileUrl := some "http://fw" }

/-- Manager state whose catalog holds only `fwOld`. -/
def stateOld : OtaState :=
  { versions := [("1.0.0", fwOld)], cache := [], updates := [] }

/-- An event that neither marks `d` Completed nor delivers bytes for `d`. -/
def benignE (d : String) : OtaEvent → Prop
  | .write d' info => d' = d → info.status ≠ OtaUpdateStatus.Completed
  | .verified _ _ _ _ => True
  | .delivered d' _ => d' ≠ d

/-- Traces in which a Completed write for `d` appears only immediately
after a clean verification and immediately before the matching delivery. -/
inductive C1ok (d : String) : List OtaEvent → Prop
  | nil : C1ok d []
  | benign {e : OtaEvent} {tr : List OtaEvent} :
      benignE d e → C1ok d tr → C1ok d (e :: tr)
  | block {b : Bytes} {fw : FirmwareVersion} {info : OtaUpdateInfo}
      {tr : List OtaEvent} :
      info.status = OtaUpdateStatus.Completed → C1ok d tr →
      C1ok d (OtaEvent.verified d b fw [] :: OtaEvent.write d info ::
        OtaEvent.delivered d b :: tr)

theorem digit_not_jsWhitespace (c : Char) (h : c.isDigit = true) :
    jsWhitespace c = false := by
  simp [Char.isDigit] at h
  have h' : 48 ≤ c.toNat ∧ c.toNat ≤ 57 := ⟨h.1, h.2⟩
  simp only [jsWhitespace, Bool.or_eq_false_iff, Bool.and_eq_false_iff,
    decide_eq_false_iff_not]
  omega

theorem dropWhile_id_of_false {p : Char → Bool} (l : List Char)
    (h : ∀ a ∈ l, p a = false) : l.dropWhile p = l := by
  cases l with
  | nil => rfl
  | cons a t =>
      rw [List.dropWhile_cons_of_neg]
      simp [h a (List.mem_cons_self a t)]

theorem jsTrim_digits (cs : List Char) (h : cs.all Char.isDigit = true) :
    jsTrim cs = cs := by
  have hmem : ∀ a ∈ cs, Char.isDigit a = true := by
    intro a ha; exact List.all_eq_true.mp h a ha
  have hnw : ∀ a ∈ cs, jsWhitespace a = false := fun a ha =>
    digit_not_jsWhitespace a (hmem a ha)
  unfold jsTrim dropTrailing
  rw [dropWhile_id_of_false cs hnw,
    dropWhile_id_of_false cs.reverse (fun a ha => hnw a (List.mem_reverse.mp ha)),
    List.reverse_reverse]

theorem parseUnsignedDec_digits (cs : List Char)
    (h : cs.all Char.isDigit = true) (hne : cs ≠ []) :
    parseUnsignedDec cs = .fin (natOfDigits cs) 0 := by
  have hmem : ∀ a ∈ cs, Char.isDigit a = true := by
    intro a ha; exact List.all_eq_true.mp h a ha
  have hI : cs ≠ ['I', 'n', 'f', 'i', 'n', 'i', 't', 'y'] := by
    intro he
    have hid := hmem 'I' (by rw [he]; exact List.mem_cons_self _ _)
    exact absurd hid (by decide)
  simp only [parseUnsignedDec, if_neg hI]
  rw [List.takeWhile_eq_self_iff.mpr hmem, List.dropWhile_eq_nil_iff.mpr hmem]
  simp [hne]

theorem jsNumberTrimmed_digits (cs : List Char)
    (h : cs.all Char.isDigit = true) :
    jsNumberTrimmed cs = .fin (natOfDigits cs) 0 := by
  cases cs with
  | nil => rfl
  | cons c r =>
      have hall : (c :: r).all Char.isDigit = true := h
      rw [List.all_cons, Bool.and_eq_true] at h
      obtain ⟨hc, hr⟩ := h
      have hplus : c ≠ '+' := by
        intro he; subst he; exact absurd hc (by decide)
      have hminus : c ≠ '-' := by
        intro he; subst he; exact absurd hc (by decide)
      simp only [jsNumberTrimmed, if_neg hplus, if_neg hminus]
      by_cases h0 : c = '0'
      · rw [if_pos h0]
        cases r with
        | nil => exact parseUnsignedDec_digits _ hall (by intro hx; cases hx)
        | cons d r2 =>
            have hd : d.isDigit = true :=
              List.all_eq_true.mp hr d (List.mem_cons_self _ _)
            have hx : ¬(d = 'x' ∨ d = 'X') := by
              rintro (he | he) <;> (subst he; exact absurd hd (by decide))
            have ho : ¬(d = 'o' ∨ d = 'O') := by
              rintro (he | he) <;> (subst he; exact absurd hd (by decide))
            have hbb : ¬(d = 'b' ∨ d = 'B') := by
              rintro (he | he) <;> (subst he; exact absurd hd (by decide))
            simp only [if_neg hx, if_neg ho, if_neg hbb]
            exact parseUnsignedDec_digits _ hall (by intro hx2; cases hx2)
      · rw [if_neg h0]
        exact parseUnsignedDec_digits _ hall (by intro hx; cases hx)

theorem jsNumber_digits (cs : List Char) (h : cs.all Char.isDigit = true) :
    jsNumber cs = .fin (natOfDigits cs) 0 := by
  unfold jsNumber
  rw [jsTrim_digits cs h, jsNumberTrimmed_digits cs h]

theorem amendedSegVal_digits (cs : List Char) (h : cs.all Char.isDigit = true) :
    amendedSegVal cs = natOfDigits cs := by
  simp [amendedSegVal, h]

theorem amendedSegVal_notDigits (cs : List Char)
    (h : cs.all Char.isDigit = false) : amendedSegVal cs = 0 := by
  simp [amendedSegVal, h]

theorem drop_headD (l : List Nat) : ∀ i : Nat, (l.drop i).headD 0 = l.getD i 0 := by
  induction l with
  | nil => intro i; cases i <;> rfl
  | cons x t ih =>
      intro i
      cases i with
      | zero => rfl
      | succ j => exact ih j

theorem segAtJs_faithful (segs : List (List Char))
    (h : segs.all segFaithful = true) (i : Nat) :
    segAtJs (segs.map jsNumber) i =
      JsVal.fin (((segs.map amendedSegVal).getD i 0 : Nat) : Int) 0 := by
  unfold segAtJs
  rw [List.get?_map, List.getD_eq_get?, List.get?_map]
  cases hq : segs.get? i with
  | none => rfl
  | some seg =>
      have hmem : seg ∈ segs := List.get?_mem hq
      have hf : segFaithful seg = true := List.all_eq_true.mp h seg hmem
      unfold segFaithful at hf
      rw [Bool.or_eq_true] at hf
      simp only [Option.map_some', Option.getD_some]
      rcases hf with hd | hnan
      · rw [Bool.and_eq_true] at hd
        obtain ⟨hdig, _⟩ := hd
        rw [jsNumber_digits seg hdig, amendedSegVal_digits seg hdig]
        rfl
      · rw [beq_iff_eq] at hnan
        have hnd : seg.all Char.isDigit = false := by
          cases hx : seg.all Char.isDigit
          · rfl
          · rw [jsNumber_digits seg hx] at hnan
            exact absurd hnan (by intro hcon; cases hcon)
        rw [hnan, amendedSegVal_notDigits seg hnd]
        rfl

theorem jvLt_finNat (a b : Nat) :
    jvLt (.fin (a : Int) 0) (.fin (b : Int) 0) = decide (a < b) := by
  simp [jvLt]

theorem compareLoop_eq_cmpLoopNat (segs1 segs2 : List (List Char))
    (h1 : segs1.all segFaithful = true) (h2 : segs2.all segFaithful = true) :
    ∀ (fuel i : Nat),
    compareLoop (segs1.map jsNumber) (segs2.map jsNumber) i fuel =
      cmpLoopNat (segs1.map amendedSegVal) (segs2.map amendedSegVal) i fuel := by
  intro fuel
  induction fuel with
  | zero => intro i; rfl
  | succ f ih =>
      intro i
      simp only [compareLoop, cmpLoopNat]
      rw [segAtJs_faithful segs1 h1 i, segAtJs_faithful segs2 h2 i,
        jvLt_finNat, jvLt_finNat]
      simp only [decide_eq_true_eq, gt_iff_lt, ih (i + 1)]

theorem cmpLoopNat_eq_cmpSegs : ∀ (fuel : Nat) (v1 v2 : List Nat)
    (i : Nat), v1.length ≤ i + fuel → v2.length ≤ i + fuel →
    cmpLoopNat v1 v2 i fuel = cmpSegs (v1.drop i) (v2.drop i) := by
  intro fuel
  induction fuel with
  | zero =>
      intro v1 v2 i h1 h2
      have d1 : v1.drop i = [] := List.drop_eq_nil_of_le h1
      have d2 : v2.drop i = [] := List.drop_eq_nil_of_le h2
      simp [cmpLoopNat, d1, d2, cmpSegs]
  | succ fuel ih =>
      intro v1 v2 i h1 h2
      have ha : v1.getD i 0 = (v1.drop i).headD 0 := (drop_headD v1 i).symm
      have hb : v2.getD i 0 = (v2.drop i).headD 0 := (drop_headD v2 i).symm
      have h1' : v1.length ≤ (i + 1) + fuel := by omega
      have h2' : v2.length ≤ (i + 1) + fuel := by omega
      have ihd := ih v1 v2 (i + 1) h1' h2'
      cases hd1 : v1.drop i with
      | nil =>
          have ha0 : v1.getD i 0 = 0 := by rw [ha, hd1]; rfl
          have hd1' : v1.drop (i + 1) = [] := by
            rw [← List.tail_drop, hd1]; rfl
          cases hd2 : v2.drop i with
          | nil =>
              have hb0 : v2.getD i 0 = 0 := by rw [hb, hd2]; rfl
              have hd2' : v2.drop (i + 1) = [] := by
                rw [← List.tail_drop, hd2]; rfl
              rw [hd1', hd2'] at ihd
              simp only [cmpLoopNat]
              rw [ha0, hb0, ihd]
              simp [cmpSegs]
          | cons y ys =>
              have hby : v2.getD i 0 = y := by rw [hb, hd2]; rfl
              have hd2' : v2.drop (i + 1) = ys := by
                rw [← List.tail_drop, hd2]; rfl
              rw [hd1', hd2'] at ihd
              simp only [cmpLoopNat]
              rw [ha0, hby, ihd]
              rcases Nat.eq_zero_or_pos y with hy | hy
              · subst hy
                simp [cmpSegs]
              · simp [cmpSegs, hy, Nat.pos_iff_ne_zero.mp hy]
      | cons x xs =>
          have hax : v1.getD i 0 = x := by rw [ha, hd1]; rfl
          have hd1' : v1.drop (i + 1) = xs := by
            rw [← List.tail_drop, hd1]; rfl
          have hd2' : v2.drop (i + 1) = (v2.drop i).tail := by
            rw [← List.tail_drop]
          rw [hd1', hd2'] at ihd
          simp only [cmpLoopNat, gt_iff_lt]
          rw [hax, hb]
          simp only [cmpSegs, gt_iff_lt]
          by_cases hgt : (v2.drop i).headD 0 < x
          · rw [if_pos hgt, if_pos hgt]
          · rw [if_neg hgt, if_neg hgt]
            by_cases hlt : x < (v2.drop i).headD 0
            · rw [if_pos hlt, if_pos hlt]
            · rw [if_neg hlt, if_neg hlt, ihd]

theorem compareVersions_eq_amendedCompare (a b : String)
    (ha : versionFaithful a = true) (hb : versionFaithful b = true) :
    compareVersions a b = amendedCompare a b := by
  unfold versionFaithful at ha hb
  unfold compareVersions amendedCompare
  rw [compareLoop_eq_cmpLoopNat _ _ ha hb]
  rw [cmpLoopNat_eq_cmpSegs
      (max ((splitSegs '.' a.data).map jsNumber).length
        ((splitSegs '.' b.data).map jsNumber).length)
      _ _ 0 (by simp) (by simp)]
  simp

/-- C4 (counterexample): the claim's reading — each segment contributes its
leading digits, so a `-prerelease` suffix does not change the segment's
numeric value — gives `compareVersions("1.2-beta", "1.2") = 0`, but the
code returns `-1`: `Number("2-beta")` is `NaN`, and `NaN || 0` reads the
segment as `0`, not `2`. -/
theorem compareVersions_leading_digits_counterexample :
    claimCompare "1.2-beta" "1.2" = 0 ∧
      compareVersions "1.2-beta" "1.2" = -1 := by
  constructor <;> rfl

/-- C4 (amended): `compareVersions(a, b)` splits each string on `.` and
parses each segment with JS `Number`; a segment `Number` rejects — any
segment carrying non-numeric text such as a `-suffix` — contributes `0`
via `|| 0` (the leading digits are discarded too), as does a missing
trailing segment; segments are compared left to right and the first
unequal one decides -1/0/1.  Stated on the faithful domain
(`versionFaithful`: every segment is either a plain digit run below
`2^53`, where the exact embedded value and the IEEE-double value the code
compares coincide, or a segment `Number` rejects), the comparison equals
the segment-wise reference comparator `amendedCompare`.
`compareVersions("1.2", "1.2.0") = 0` as the claim states. -/
theorem compareVersions_segmentwise_amended :
    (∀ a b : String, versionFaithful a = true → versionFaithful b = true →
      compareVersions a b = amendedCompare a b) ∧
      compareVersions "1.2" "1.2.0" = 0 :=
  ⟨compareVersions_eq_amendedCompare, by rfl⟩

theorem compareVersions_segmentwise_amended_witness :
    (versionFaithful "1.2-beta" = true ∧ versionFaithful "1.2" = true) ∧
      compareVersions "1.2-beta" "1.2" = amendedCompare "1.2-beta" "1.2" :=
  ⟨⟨by decide, by decide⟩,
    compareVersions_segmentwise_amended.1 "1.2-beta" "1.2"
      (by decide) (by decide)⟩

/-! ## The verifier's error accounting -/

/-- Two strings whose first characters differ are different. -/
theorem head_of_data_ne {s t : String} {cs ct : Char}
    (hs : s.data.head? = some cs) (ht : t.data.head? = some ct)
    (h : cs ≠ ct) : s ≠ t := by
  intro e
  rw [e, ht] at hs
  injection hs with h2
  exact h h2.symm

/-- The size-mismatch message starts with `'F'` whatever numbers are
interpolated into it. -/
theorem size_msg_head (a c : String) :
    ("File size mismatch: expected " ++ a ++ ", got " ++ c).data.head? =
      some 'F' := by
  simp only [String.data_append]
  rfl

/-- C5 (counterexample): the claim reads "the size check (when fileSize is
declared)", but a declared `fileSize` of `0` is falsy in JS, so the check
is skipped: a one-byte buffer against a record declaring `fileSize = 0`
yields no error at all (the claim demands exactly one). -/
theorem verifyIntegrity_zero_size_counterexample :
    (verifyIntegrity (hashConst "aa") (hashConst "aa") [0]
        { version := "1.0.0", fileSize := some 0 }).errors = [] ∧
      (verifyIntegrity (hashConst "aa") (hashConst "aa") [0]
        { version := "1.0.0", fileSize := some 0 }).valid = true ∧
      ([0] : Bytes).length ≠ 0 := by
  refine ⟨rfl, rfl, by decide⟩

/-- C5 (amended): `verifyIntegrity` evaluates the size check when
`fileSize` is declared *and non-zero*, the checksum check when `checksum`
is declared *and non-empty*, and the signature check when `signature` is
declared *and non-empty* (JS truthiness), independently and without
short-circuiting; each failed check appends exactly one error string, and
`valid` holds exactly when the error list is empty.  In particular a
buffer failing both a declared non-zero size and a declared non-empty
checksum, with no declared signature, yields exactly 2 errors. -/
theorem verifyIntegrity_error_accounting (md5 sha256 : Bytes → String)
    (bytes : Bytes) (fw : FirmwareVersion) :
    ((verifyIntegrity md5 sha256 bytes fw).errors.length =
      (if truthyNum fw.fileSize && bytes.length != fw.fileSize.getD 0
        then 1 else 0) +
      (if truthyStr fw.checksum &&
          !verifyChecksum md5 sha256 bytes (fw.checksum.getD "")
        then 1 else 0) +
      (if truthyStr fw.signature &&
          !isValidSignatureFormat (fw.signature.getD "")
        then 1 else 0)) ∧
    ((verifyIntegrity md5 sha256 bytes fw).valid = true ↔
      (verifyIntegrity md5 sha256 bytes fw).errors = []) ∧
    (truthyNum fw.fileSize = true → bytes.length ≠ fw.fileSize.getD 0 →
      truthyStr fw.checksum = true →
      verifyChecksum md5 sha256 bytes (fw.checksum.getD "") = false →
      truthyStr fw.signature = false →
      (verifyIntegrity md5 sha256 bytes fw).errors.length = 2) := by
  refine ⟨?_, ?_, ?_⟩
  · simp only [verifyIntegrity, verifySignature]
    split <;> split <;> split <;> simp
  · have hv : (verifyIntegrity md5 sha256 bytes fw).valid =
        ((verifyIntegrity md5 sha256 bytes fw).errors.length == 0) := rfl
    rw [hv]
    simp [List.length_eq_zero]
  · intro h1 h2 h3 h4 h5
    simp only [verifyIntegrity, verifySignature]
    rw [h1, h3, h4, h5]
    simp [h2]

/-- Witness for the amended C5 theorem at a concrete input: a two-byte
buffer against a record declaring size 5 and checksum `"bb"` under a
digest primitive answering `"aa"`, with no signature, yields 2 errors. -/
theorem verifyIntegrity_error_accounting_witness :
    (truthyNum (some 5) = true ∧ ([1, 2] : Bytes).length ≠ 5 ∧
      truthyStr (some "bb") = true ∧
      verifyChecksum (hashConst "aa") (hashConst "aa") [1, 2] "bb" = false ∧
      truthyStr (none : Option String) = false) ∧
    (verifyIntegrity (hashConst "aa") (hashConst "aa") [1, 2]
      { version := "1.0.0", fileSize := some 5,
        checksum := some "bb" }).errors.length = 2 :=
  ⟨⟨by decide, by decide, by decide, by rfl, by decide⟩,
    (verifyIntegrity_error_accounting (hashConst "aa") (hashConst "aa") [1, 2]
      { version := "1.0.0", fileSize := some 5,
        checksum := some "bb" }).2.2
      (by decide) (by decide) (by decide) (by rfl) (by decide)⟩

/-- C9: `verifyIntegrity` passes no public key to `verifySignature`, so the
signature check is the structural one: whenever the declared signature is a
non-empty string over the base64 alphabet, the check contributes no error,
whatever the buffer holds. -/
theorem verifyIntegrity_signature_check_structural (md5 sha256 : Bytes → String)
    (bytes : Bytes) (fw : FirmwareVersion) (sig : String)
    (hsig : fw.signature = some sig) (hne : sig ≠ "")
    (hb64 : sig.data.all isBase64Char = true) :
    verifySignature bytes sig none = isValidSignatureFormat sig ∧
      "Signature verification failed" ∉
        (verifyIntegrity md5 sha256 bytes fw).errors := by
  have hlen : 0 < sig.length := by
    rcases sig with ⟨cs⟩
    cases cs with
    | nil => exact absurd (by rfl) hne
    | cons c t => simp [String.length]
  have hfmt : isValidSignatureFormat sig = true := by
    unfold isValidSignatureFormat
    rw [Bool.and_eq_true]
    exact ⟨decide_eq_true hlen, hb64⟩
  have hvs : verifySignature bytes sig none = true := hfmt
  refine ⟨rfl, ?_⟩
  intro hmem
  simp only [verifyIntegrity, hsig, Option.getD_some, hvs, Bool.not_true,
    Bool.and_false, Bool.false_eq_true, if_false, List.append_nil] at hmem
  rcases List.mem_append.mp hmem with h1 | h2
  · revert h1
    split
    · intro h1
      rw [List.mem_singleton] at h1
      exact @head_of_data_ne _ _ 'S' 'F' (by decide) (size_msg_head _ _)
        (by decide) h1
    · intro h1; simp at h1
  · revert h2
    split
    · intro h2
      rw [List.mem_singleton] at h2
      exact (by decide : ("Signature verification failed" : String) ≠
        "Checksum verification failed") h2
    · intro h2; simp at h2

/-! ## Registry and session-write lemmas -/

theorem jsMapGet_set_self {α : Type} (m : List (String × α)) (k : String)
    (v : α) : jsMapGet (jsMapSet m k v) k = some v := by
  induction m with
  | nil => simp [jsMapGet, jsMapSet]
  | cons p rest ih =>
      obtain ⟨k', v'⟩ := p
      by_cases hk : k' = k
      · simp [jsMapGet, jsMapSet, hk]
      · simp [jsMapGet, jsMapSet, hk, ih]

theorem jsMapGet_set_ne {α : Type} (m : List (String × α)) (k k' : String)
    (v : α) (h : k ≠ k') : jsMapGet (jsMapSet m k v) k' = jsMapGet m k' := by
  induction m with
  | nil => simp [jsMapGet, jsMapSet, h]
  | cons p rest ih =>
      obtain ⟨k0, v0⟩ := p
      by_cases hk : k0 = k
      · subst hk
        simp [jsMapGet, jsMapSet, h]
      · simp [jsMapGet, jsMapSet, hk, ih]

theorem jsMapSet_set_self {α : Type} (m : List (String × α)) (k : String)
    (a b : α) : jsMapSet (jsMapSet m k a) k b = jsMapSet m k b := by
  induction m with
  | nil => simp [jsMapSet]
  | cons p rest ih =>
      obtain ⟨k0, v0⟩ := p
      by_cases hk : k0 = k
      · simp [jsMapSet, hk]
      · simp [jsMapSet, hk, ih]

theorem lastWrite_cons (info x : OtaUpdateInfo) (xs : List OtaUpdateInfo) :
    lastWrite info (x :: xs) = lastWrite x xs := rfl

/-- The progress-callback writes change only the `progress` field: every
other field of the last written record agrees with the starting record. -/
theorem progressLast_fields : ∀ (evs : List DownloadProgress)
    (info : OtaUpdateInfo),
    (lastWrite info (progressInfos info evs)).deviceId = info.deviceId ∧
    (lastWrite info (progressInfos info evs)).currentVersion =
      info.currentVersion ∧
    (lastWrite info (progressInfos info evs)).status = info.status ∧
    (lastWrite info (progressInfos info evs)).targetVersion =
      info.targetVersion ∧
    (lastWrite info (progressInfos info evs)).error = info.error ∧
    (lastWrite info (progressInfos info evs)).startedAt = info.startedAt ∧
    (lastWrite info (progressInfos info evs)).completedAt = info.completedAt := by
  intro evs
  induction evs with
  | nil => intro info; exact ⟨rfl, rfl, rfl, rfl, rfl, rfl, rfl⟩
  | cons e es ih =>
      intro info
      exact ih { info with progress := some e.percentage }

/-- Every progress-callback write keeps the fields other than `progress`. -/
theorem progressInfos_fields : ∀ (evs : List DownloadProgress)
    (info : OtaUpdateInfo), ∀ i ∈ progressInfos info evs,
    i.deviceId = info.deviceId ∧ i.currentVersion = info.currentVersion ∧
      i.status = info.status ∧ i.targetVersion = info.targetVersion ∧
      i.error = info.error ∧ i.startedAt = info.startedAt ∧
      i.completedAt = info.completedAt := by
  intro evs
  induction evs with
  | nil => intro info i hi; simp [progressInfos] at hi
  | cons e es ih =>
      intro info i hi
      simp only [progressInfos, List.mem_cons] at hi
      rcases hi with h | h
      · subst h; exact ⟨rfl, rfl, rfl, rfl, rfl, rfl, rfl⟩
      · exact ih { info with progress := some e.percentage } i h

/-! ## The signature claims -/

/-- C3 (counterexample): with a public key supplied, `verifySignature`
accepts a structurally invalid signature (`"####"` is not even in base64
format) for arbitrary bytes — no asymmetric verification happens, so the
function cannot return `false` on any invalid triple with a key. -/
theorem verifySignature_with_key_counterexample :
    verifySignature [1, 2, 3] "####" (some "public-key") = true ∧
      isValidSignatureFormat "####" = false :=
  ⟨rfl, by decide⟩

/-- C3 (amended): when a public key is supplied, `verifySignature` ignores
the bytes, the signature and the key and returns `true` unconditionally (a
placeholder, as the source's own comment documents); only the keyless path
checks anything, namely the structural base64 format of the signature. -/
theorem verifySignature_with_key_always_true :
    (∀ (bytes : Bytes) (sig key : String),
      verifySignature bytes sig (some key) = true) ∧
    (∀ (bytes : Bytes) (sig : String),
      verifySignature bytes sig none = isValidSignatureFormat sig) :=
  ⟨fun _ _ _ => rfl, fun _ _ => rfl⟩

/-- Witness for the C9 theorem at a concrete input: a base64 signature
string passes the structural check inside `verifyIntegrity` whatever the
buffer holds. -/
theorem verifyIntegrity_signature_check_structural_witness :
    (({ version := "1.0.0", signature := some "AbC+/=" } :
        FirmwareVersion).signature = some "AbC+/=" ∧
      ("AbC+/=" : String) ≠ "" ∧
      "AbC+/=".data.all isBase64Char = true) ∧
    (verifySignature [9] "AbC+/=" none = isValidSignatureFormat "AbC+/=" ∧
      "Signature verification failed" ∉
        (verifyIntegrity (hashConst "aa") (hashConst "aa") [9]
          { version := "1.0.0", signature := some "AbC+/=" }).errors) :=
  ⟨⟨rfl, by decide, by decide⟩,
    verifyIntegrity_signature_check_structural (hashConst "aa")
      (hashConst "aa") [9] { version := "1.0.0", signature := some "AbC+/=" }
      "AbC+/=" rfl (by decide) (by decide)⟩

/-! ## Session-creation and URL-precondition claims -/

/-- C10: calling `downloadFirmware` for a device that has no session (no
`checkForUpdate` ever ran for it) creates one whose `currentVersion` is the
empty string, so `getUpdateStatus` afterwards returns a non-null snapshot
with `currentVersion = ""`. -/
theorem downloadFirmware_fresh_session (env : OtaEnv) (s : OtaState)
    (deviceId : String) (fw : FirmwareVersion) (now : Int)
    (h : jsMapGet s.updates deviceId = none) :
    ∃ info, getUpdateStatus (downloadFirmware env s deviceId fw now).2.1
        deviceId = some info ∧ info.currentVersion = "" := by
  simp only [downloadFirmware, getUpdateStatus, h, Option.getD_none]
  split
  · exact ⟨_, jsMapGet_set_self _ _ _, rfl⟩
  · split
    · exact ⟨_, jsMapGet_set_self _ _ _, (progressLast_fields _ _).2.1⟩
    · split
      · exact ⟨_, jsMapGet_set_self _ _ _, (progressLast_fields _ _).2.1⟩
      · exact ⟨_, jsMapGet_set_self _ _ _, (progressLast_fields _ _).2.1⟩

/-- Witness for the C10 theorem: a fresh manager, a device never checked. -/
theorem downloadFirmware_fresh_session_witness :
    jsMapGet initialOtaState.updates "dev" = none ∧
      ∃ info, getUpdateStatus
          (downloadFirmware envSample initialOtaState "dev" fwSample 3).2.1
          "dev" = some info ∧ info.currentVersion = "" :=
  ⟨rfl, downloadFirmware_fresh_session envSample initialOtaState "dev"
    fwSample 3 rfl⟩

/-- C6 (counterexample): `downloadFirmware` on a version record with no
`fileUrl` throws, but only *after* advancing the session: the session is
left with status Downloading, progress 0 and the target version written —
the claim says none of these writes happen. -/
theorem downloadFirmware_no_url_counterexample :
    (downloadFirmware envSample initialOtaState "dev"
        { version := "2.0.0" } 3).1 =
      .error "Firmware file URL is not specified" ∧
    getUpdateStatus (downloadFirmware envSample initialOtaState "dev"
        { version := "2.0.0" } 3).2.1 "dev" =
      some { deviceId := "dev", currentVersion := "",
               targetVersion := some "2.0.0", status := .Downloading,
               progress := some 0 } :=
  ⟨rfl, rfl⟩

/-- C6 (amended): on a missing or empty `fileUrl`, `downloadFirmware`
throws synchronously with no download attempt (the cache is untouched and
the only event is one session write), but that write has already advanced
the session to Downloading with progress 0 and `targetVersion` set; the
session is left in that state — in particular never Completed. -/
theorem downloadFirmware_no_url (env : OtaEnv) (s : OtaState)
    (deviceId : String) (fw : FirmwareVersion) (now : Int)
    (h : truthyStr fw.fileUrl = false) :
    (downloadFirmware env s deviceId fw now).1 =
      .error "Firmware file URL is not specified" ∧
    (downloadFirmware env s deviceId fw now).2.1.cache = s.cache ∧
    ∃ info, (downloadFirmware env s deviceId fw now).2.2 =
        [OtaEvent.write deviceId info] ∧
      getUpdateStatus (downloadFirmware env s deviceId fw now).2.1 deviceId =
        some info ∧
      info.status = OtaUpdateStatus.Downloading ∧ info.progress = some 0 ∧
      info.targetVersion = some fw.version := by
  simp only [downloadFirmware, getUpdateStatus, h, Bool.not_false, if_true,
    eq_self_iff_true]
  refine ⟨trivial, trivial, _, rfl, jsMapGet_set_self _ _ _, rfl, rfl, rfl⟩

/-- Witness for the amended C6 theorem at a concrete input. -/
theorem downloadFirmware_no_url_witness :
    truthyStr ({ version := "2.0.0" } : FirmwareVersion).fileUrl = false ∧
      ((downloadFirmware envSample initialOtaState "dev"
          { version := "2.0.0" } 3).1 =
        .error "Firmware file URL is not specified" ∧
      (downloadFirmware envSample initialOtaState "dev"
          { version := "2.0.0" } 3).2.1.cache = initialOtaState.cache ∧
      ∃ info, (downloadFirmware envSample initialOtaState "dev"
            { version := "2.0.0" } 3).2.2 =
          [OtaEvent.write "dev" info] ∧
        getUpdateStatus (downloadFirmware envSample initialOtaState "dev"
            { version := "2.0.0" } 3).2.1 "dev" = some info ∧
        info.status = OtaUpdateStatus.Downloading ∧ info.progress = some 0 ∧
        info.targetVersion =
          some ({ version := "2.0.0" } : FirmwareVersion).version) :=
  ⟨by decide, downloadFirmware_no_url envSample initialOtaState "dev"
    { version := "2.0.0" } 3 (by decide)⟩

/-! ## Downloader cache behaviour -/

/-- Unfolding `download` on a cache hit. -/
theorem download_hit (net : NetOracle) (cache : Cache) (url : String)
    (cb : Bool) (b : Bytes) (h : jsMapGet cache url = some b) :
    download net cache url cb =
      { result := .ok b, cache := cache,
        events := if cb then [⟨b.length, b.length, 100⟩] else [],
        fetched := false } := by
  simp only [download, h]

/-- Unfolding `download` on a cache miss with a failing transport. -/
theorem download_miss_err (net : NetOracle) (cache : Cache) (url : String)
    (cb : Bool) (e : String) (h : jsMapGet cache url = none)
    (he : net url = .error e) :
    download net cache url cb =
      { result := .error ("Firmware download failed: " ++ e),
        cache := cache, events := [], fetched := true } := by
  simp only [download, h, he]

/-- Unfolding `download` on a cache miss with a successful transport. -/
theorem download_miss_ok (net : NetOracle) (cache : Cache) (url : String)
    (cb : Bool) (resp : NetResponse) (h : jsMapGet cache url = none)
    (ho : net url = .ok resp) :
    download net cache url cb =
      { result := .ok resp.chunks.flatten,
        cache := jsMapSet cache url resp.chunks.flatten,
        events := if cb then progressEvents resp.total resp.chunks else [],
        fetched := true } := by
  simp only [download, h, ho]

/-- A successful `download` leaves its returned buffer in the cache under
its URL. -/
theorem download_ok_cached (net : NetOracle) (cache : Cache) (url : String)
    (cb : Bool) (b : Bytes)
    (h : (download net cache url cb).result = .ok b) :
    jsMapGet (download net cache url cb).cache url = some b := by
  cases hq : jsMapGet cache url with
  | some cached =>
      rw [download_hit net cache url cb cached hq] at h ⊢
      simp only [Except.ok.injEq] at h
      rw [hq, h]
  | none =>
      cases hn : net url with
      | error e =>
          rw [download_miss_err net cache url cb e hq hn] at h
          simp at h
      | ok resp =>
          rw [download_miss_ok net cache url cb resp hq hn] at h ⊢
          simp only [Except.ok.injEq] at h
          rw [jsMapGet_set_self, h]

/-- `download` never evicts or replaces an existing cache entry. -/
theorem download_preserves_cache (net : NetOracle) (cache : Cache)
    (u u' : String) (cb : Bool) (b : Bytes) (h : jsMapGet cache u = some b) :
    jsMapGet (download net cache u' cb).cache u = some b := by
  by_cases he : u' = u
  · subst he
    rw [download_hit net cache u' cb b h]
    exact h
  · cases hq : jsMapGet cache u' with
    | some c =>
        rw [download_hit net cache u' cb c hq]
        exact h
    | none =>
        cases hn : net u' with
        | error e =>
            rw [download_miss_err net cache u' cb e hq hn]
            exact h
        | ok resp =>
            rw [download_miss_ok net cache u' cb resp hq hn]
            rw [jsMapGet_set_ne _ _ _ _ he]
            exact h



/-- Any sequence of `download` calls preserves existing cache entries. -/
theorem runDownloads_preserves (net : NetOracle) :
    ∀ (calls : List (String × Bool)) (cache : Cache) (u : String) (b : Bytes),
    jsMapGet cache u = some b →
      jsMapGet (runDownloads net cache calls) u = some b := by
  intro calls
  induction calls with
  | nil => intro cache u b h; exact h
  | cons p rest ih =>
      intro cache u b h
      obtain ⟨u', cb⟩ := p
      exact ih _ u b (download_preserves_cache net cache u u' cb b h)

/-- C8: after one successful `download` of a URL, every later `download`
of the same URL — with any other downloads interleaved and no
`clearCache` — is served from the per-URL cache: it returns the same byte
buffer, performs no network fetch, leaves the cache unchanged, and, when a
callback is supplied, reports exactly one progress event at 100%. -/
theorem download_cached_after_success (net : NetOracle) (cache : Cache)
    (url : String) (cb1 : Bool) (b : Bytes)
    (h : (download net cache url cb1).result = .ok b)
    (calls : List (String × Bool)) (cb2 : Bool) (c' : Cache)
    (hc : c' = runDownloads net (download net cache url cb1).cache calls) :
    (download net c' url cb2).result = .ok b ∧
    (download net c' url cb2).fetched = false ∧
    (download net c' url cb2).cache = c' ∧
    (download net c' url cb2).events =
      (if cb2 then [⟨b.length, b.length, 100⟩] else []) := by
  have h1 : jsMapGet (download net cache url cb1).cache url = some b :=
    download_ok_cached net cache url cb1 b h
  have h2 : jsMapGet c' url = some b := by
    rw [hc]
    exact runDownloads_preserves net calls _ url b h1
  rw [download_hit net c' url cb2 b h2]
  exact ⟨rfl, rfl, rfl, rfl⟩

/-- Witness for the C8 theorem: fetch `http://fw` once into an empty
cache, interleave an unrelated (failing) download, then download the same
URL again with a callback. -/
theorem download_cached_after_success_witness :
    (download netSample [] "http://fw" true).result = .ok [1, 2, 3, 4] ∧
    ((download netSample (runDownloads netSample
          (download netSample [] "http://fw" true).cache
          [("http://other", true)]) "http://fw" true).result =
        .ok [1, 2, 3, 4] ∧
      (download netSample (runDownloads netSample
          (download netSample [] "http://fw" true).cache
          [("http://other", true)]) "http://fw" true).fetched = false ∧
      (download netSample (runDownloads netSample
          (download netSample [] "http://fw" true).cache
          [("http://other", true)]) "http://fw" true).cache =
        runDownloads netSample
          (download netSample [] "http://fw" true).cache
          [("http://other", true)] ∧
      (download netSample (runDownloads netSample
          (download netSample [] "http://fw" true).cache
          [("http://other", true)]) "http://fw" true).events =
        (if true then [⟨4, 4, 100⟩] else [])) :=
  ⟨by rfl, download_cached_after_success netSample [] "http://fw" true
    [1, 2, 3, 4] (by rfl) [("http://other", true)] true _ rfl⟩

/-! ## Progress monotonicity -/



/-- C7 (counterexample): in the sample run — one `performUpdate` whose
session is created at the Downloading write and ends Completed — the write
after the 100% download tick is the fixed Verifying checkpoint at 90:
progress decreases from 100 to 90 inside a single run, refuting
monotonicity. -/
theorem progress_monotonicity_counterexample :
    traceSample.get? 3 = some (OtaEvent.write "dev" infoTick100) ∧
    traceSample.get? 4 = some (OtaEvent.write "dev" infoVerify90) ∧
    traceSample.get? 6 = some (OtaEvent.write "dev" infoDone) ∧
    infoTick100.progress = some 100 ∧ infoVerify90.progress = some 90 ∧
    infoDone.status = OtaUpdateStatus.Completed ∧ (90 : Nat) < 100 :=
  ⟨rfl, rfl, rfl, rfl, rfl, rfl, by decide⟩



theorem writeInfos_nil (d : String) : writeInfos d [] = [] := rfl

theorem writeInfos_cons_write_self (d : String) (i : OtaUpdateInfo)
    (rest : List OtaEvent) :
    writeInfos d (OtaEvent.write d i :: rest) = i :: writeInfos d rest := by
  simp [writeInfos]

theorem writeInfos_cons_verified (d d' : String) (b : Bytes)
    (fw : FirmwareVersion) (errs : List String) (rest : List OtaEvent) :
    writeInfos d (OtaEvent.verified d' b fw errs :: rest) =
      writeInfos d rest := rfl

theorem writeInfos_cons_delivered (d d' : String) (b : Bytes)
    (rest : List OtaEvent) :
    writeInfos d (OtaEvent.delivered d' b :: rest) = writeInfos d rest := rfl

theorem writeInfos_append (d : String) : ∀ l1 l2 : List OtaEvent,
    writeInfos d (l1 ++ l2) = writeInfos d l1 ++ writeInfos d l2 := by
  intro l1
  induction l1 with
  | nil => intro l2; rfl
  | cons e rest ih =>
      intro l2
      cases e with
      | write d' i =>
          by_cases hd : d' = d
          · subst hd
            simp [writeInfos_cons_write_self, ih]
          · simp [writeInfos, hd, ih]
      | verified d' b fw errs => simp [writeInfos_cons_verified, ih]
      | delivered d' b => simp [writeInfos_cons_delivered, ih]

theorem writeInfos_map_write (d : String) :
    ∀ infos : List OtaUpdateInfo,
    writeInfos d (infos.map (OtaEvent.write d)) = infos := by
  intro infos
  induction infos with
  | nil => rfl
  | cons i rest ih => simp [writeInfos_cons_write_self, ih]

/-- Cumulative chunk lengths never decrease. -/
theorem cumLengths_chain : ∀ (cs : List Bytes) (acc : Nat),
    List.Chain' (· ≤ ·) (cumLengths acc cs) ∧
      ∀ y ∈ cumLengths acc cs, acc ≤ y := by
  intro cs
  induction cs with
  | nil => intro acc; exact ⟨List.chain'_nil, by intro y hy; cases hy⟩
  | cons c rest ih =>
      intro acc
      rcases ih (acc + c.length) with ⟨hch, hall⟩
      constructor
      · rw [cumLengths, List.chain'_cons']
        refine ⟨?_, hch⟩
        intro y hy
        exact hall y (List.mem_of_mem_head? hy)
      · intro y hy
        rw [cumLengths, List.mem_cons] at hy
        rcases hy with h | h
        · omega
        · have := hall y h; omega

/-- `Math.round`-style division is monotone in the numerator. -/
theorem jsRound_mono (a b den : Nat) (h : a ≤ b) :
    jsRound a den ≤ jsRound b den :=
  Nat.div_le_div_right (by omega)

/-- The percentages of `fetchWithProgress`'s events never decrease. -/
theorem progressEvents_chain (total : Nat) (chunks : List Bytes) :
    List.Chain' (fun a b : DownloadProgress => a.percentage ≤ b.percentage)
      (progressEvents total chunks) := by
  unfold progressEvents
  split
  · rw [List.chain'_map]
    exact (cumLengths_chain chunks 0).1.imp
      (fun a b h => jsRound_mono _ _ _ (Nat.mul_le_mul_right 100 h))
  · exact List.chain'_nil

/-- The events any one `download` call delivers have non-decreasing
percentages. -/
theorem download_events_chain (net : NetOracle) (cache : Cache)
    (url : String) (cb : Bool) :
    List.Chain' (fun a b : DownloadProgress => a.percentage ≤ b.percentage)
      (download net cache url cb).events := by
  cases hq : jsMapGet cache url with
  | some cached =>
      rw [download_hit net cache url cb cached hq]
      split <;> simp
  | none =>
      cases hn : net url with
      | error e =>
          rw [download_miss_err net cache url cb e hq hn]
          exact List.chain'_nil
      | ok resp =>
          rw [download_miss_ok net cache url cb resp hq hn]
          split
          · exact progressEvents_chain resp.total resp.chunks
          · exact List.chain'_nil

/-- The progress-callback writes starting at a record whose progress is at
most the first tick form a non-decreasing chain. -/
theorem chain_prog_ticks : ∀ (evs : List DownloadProgress)
    (info : OtaUpdateInfo),
    (∀ e ∈ evs.head?, progOf info ≤ e.percentage) →
    List.Chain' (fun a b : DownloadProgress => a.percentage ≤ b.percentage)
      evs →
    List.Chain' (fun a b => progOf a ≤ progOf b)
      (info :: progressInfos info evs) := by
  intro evs
  induction evs with
  | nil => intro info _ _; exact List.chain'_singleton info
  | cons e es ih =>
      intro info hhead hch
      have step : progressInfos info (e :: es) =
          { info with progress := some e.percentage } ::
            progressInfos { info with progress := some e.percentage } es := rfl
      rw [step, List.chain'_cons]
      constructor
      · exact hhead e rfl
      · rw [List.chain'_cons'] at hch
        refine ih { info with progress := some e.percentage } ?_ hch.2
        intro e2 he2
        exact hch.1 e2 he2

/-- The last record of a write sequence is the list's last element. -/
theorem getLast?_cons_lastWrite : ∀ (ticks : List OtaUpdateInfo)
    (info : OtaUpdateInfo),
    (info :: ticks).getLast? = some (lastWrite info ticks) := by
  intro ticks
  induction ticks with
  | nil => intro info; rfl
  | cons x xs ih =>
      intro info
      rw [List.getLast?_cons_cons, ih x, lastWrite_cons]

/-- C7 (amended): within one `downloadFirmware` run, the session's
progress is non-decreasing across consecutive session writes *except* at
the fixed Verifying checkpoint write (status Verifying, progress 90),
which may be lower than the last download progress — e.g. after the 100%
callback of a completed or cache-served download.  All other writes (the
initial Downloading/0 write, the download ticks, the Failed writes, which
keep the current progress, and the Completed/100 write) never decrease
progress.  The only other operation that writes into a live run,
`cancelUpdate`, copies the session's current progress unchanged
(`checkForUpdate` overwrites the session, starting a new run). -/
theorem downloadFirmware_progress_monotone_except_checkpoint
    (env : OtaEnv) (s : OtaState) (d : String) (fw : FirmwareVersion)
    (now : Int) :
    List.Chain' ProgStep
      (writeInfos d (downloadFirmware env s d fw now).2.2) ∧
    ∀ s' : OtaState, ∀ i ∈ writeInfos d (cancelUpdate s' d).2,
      ∃ j, jsMapGet s'.updates d = some j ∧ i.progress = j.progress := by
  constructor
  case right =>
    intro s' i hi
    simp only [cancelUpdate] at hi
    cases hq : jsMapGet s'.updates d with
    | none => rw [hq] at hi; simp [writeInfos] at hi
    | some j =>
        rw [hq] at hi
        by_cases hst : j.status = OtaUpdateStatus.Downloading
        · simp only [if_pos hst, writeInfos_cons_write_self, writeInfos_nil,
            List.mem_singleton] at hi
          subst hi
          exact ⟨j, rfl, rfl⟩
        · simp only [if_neg hst] at hi
          simp [writeInfos] at hi
  case left =>
  simp only [downloadFirmware]
  split
  · simp only [writeInfos_cons_write_self, writeInfos_nil]
    exact List.chain'_singleton _
  · split
    · -- transport failure: Downloading write, ticks, one Failed write
      simp only [writeInfos_append, writeInfos_cons_write_self,
        writeInfos_map_write, writeInfos_nil]
      rw [List.chain'_append]
      refine ⟨?_, List.chain'_singleton _, ?_⟩
      · exact (chain_prog_ticks _ _ (fun e _ => Nat.zero_le _)
          (download_events_chain _ _ _ _)).imp (fun a b h => Or.inl h)
      · intro x hx y hy
        rw [getLast?_cons_lastWrite, Option.mem_def, Option.some_inj] at hx
        simp only [List.head?_cons, Option.mem_def, Option.some_inj] at hy
        subst hx; subst hy
        exact Or.inl (Nat.le_refl _)
    · split
      · -- verification passed: ... Verifying/90 then Completed/100
        simp only [writeInfos_append, writeInfos_cons_write_self,
          writeInfos_map_write, writeInfos_cons_verified,
          writeInfos_cons_delivered, writeInfos_nil]
        rw [List.chain'_append]
        refine ⟨?_, ?_, ?_⟩
        · exact (chain_prog_ticks _ _ (fun e _ => Nat.zero_le _)
            (download_events_chain _ _ _ _)).imp (fun a b h => Or.inl h)
        · rw [List.chain'_cons]
          refine ⟨Or.inl ?_, List.chain'_singleton _⟩
          show (90 : Nat) ≤ 100
          decide
        · intro x hx y hy
          rw [getLast?_cons_lastWrite, Option.mem_def, Option.some_inj] at hx
          simp only [List.head?_cons, Option.mem_def, Option.some_inj] at hy
          subst hx; subst hy
          exact Or.inr ⟨rfl, rfl⟩
      · -- verification failed: Verifying/90 then two Failed writes
        simp only [writeInfos_append, writeInfos_cons_write_self,
          writeInfos_map_write, writeInfos_cons_verified,
          writeInfos_cons_delivered, writeInfos_nil]
        rw [List.chain'_append]
        refine ⟨?_, ?_, ?_⟩
        · exact (chain_prog_ticks _ _ (fun e _ => Nat.zero_le _)
            (download_events_chain _ _ _ _)).imp (fun a b h => Or.inl h)
        · rw [List.chain'_cons, List.chain'_cons]
          exact ⟨Or.inl (Nat.le_refl _),
            Or.inl (Nat.le_refl _), List.chain'_singleton _⟩
        · intro x hx y hy
          rw [getLast?_cons_lastWrite, Option.mem_def, Option.some_inj] at hx
          simp only [List.head?_cons, Option.mem_def, Option.some_inj] at hy
          subst hx; subst hy
          exact Or.inr ⟨rfl, rfl⟩

/-! ## performUpdate's no-update precondition -/



/-- C2 (counterexample): the device reports `2.0.0`, the catalog's latest
is `1.0.0`, so `compareVersions(current, latest) = 1` and no update is
needed — yet `performUpdate` downloads the older firmware anyway (the
cache shows the fetch happened) and marks the device Completed, instead of
throwing the claimed "no update available" error. -/
theorem performUpdate_no_comparison_counterexample :
    compareVersions "2.0.0" "1.0.0" = 1 ∧
    (performUpdate envSample stateOld "dev" "2.0.0" 5).1 = .ok [1, 2, 3, 4] ∧
    (performUpdate envSample stateOld "dev" "2.0.0" 5).2.1.cache =
      [("http://fw", [1, 2, 3, 4])] ∧
    getUpdateStatus (performUpdate envSample stateOld "dev" "2.0.0" 5).2.1
        "dev" =
      some { deviceId := "dev", currentVersion := "2.0.0",
             targetVersion := some "1.0.0",
             status := OtaUpdateStatus.Completed, progress := some 100,
             startedAt := some 5, completedAt := some 5 } :=
  ⟨rfl, rfl, rfl, rfl⟩

/-- `checkForUpdate` returns exactly what `needsUpdate` resolved. -/
theorem checkForUpdate_fst (s : OtaState) (d cv : String) (now : Int) :
    (checkForUpdate s d cv now).1 =
      (needsUpdate s.versions cv none).latestVersion := rfl

/-- With no explicit target, `needsUpdate` resolves the catalog's latest. -/
theorem needsUpdate_latestVersion (m : VersionMap) (cv : String) :
    (needsUpdate m cv none).latestVersion = getLatestVersion m := by
  simp only [needsUpdate]
  cases getLatestVersion m <;> rfl

/-- The download-failure message starts with `'F'`. -/
theorem dl_msg_head (e : String) :
    ("Firmware download failed: " ++ e).data.head? = some 'F' := by
  simp only [String.data_append]
  rfl

/-- The verification-failure message starts with `'F'`. -/
theorem verify_msg_head (e : String) :
    ("Firmware verification failed: " ++ e).data.head? = some 'F' := by
  simp only [String.data_append]
  rfl

/-- Every thrown `download` error is prefixed `Firmware download failed:`. -/
theorem download_error_shape (net : NetOracle) (c : Cache) (url : String)
    (cb : Bool) (e : String)
    (h : (download net c url cb).result = .error e) :
    ∃ e', e = "Firmware download failed: " ++ e' := by
  cases hq : jsMapGet c url with
  | some cached =>
      rw [download_hit net c url cb cached hq] at h
      simp at h
  | none =>
      cases hn : net url with
      | error e0 =>
          rw [download_miss_err net c url cb e0 hq hn] at h
          simp only [Except.error.injEq] at h
          exact ⟨e0, h.symm⟩
      | ok resp =>
          rw [download_miss_ok net c url cb resp hq hn] at h
          simp at h

/-- `downloadFirmware` never throws the `'No update available'` error
(its errors are the URL precondition, a prefixed transport failure, or a
prefixed verification failure). -/
theorem downloadFirmware_error_ne_noupdate (env : OtaEnv) (s : OtaState)
    (d : String) (fw : FirmwareVersion) (now : Int) :
    (downloadFirmware env s d fw now).1 ≠ .error "No update available" := by
  simp only [downloadFirmware]
  split
  · intro h
    simp only [Except.error.injEq] at h
    exact (by decide : ("Firmware file URL is not specified" : String) ≠
      "No update available") h
  · split
    · rename_i e heq
      intro h
      simp only [Except.error.injEq] at h
      obtain ⟨e', he'⟩ := download_error_shape _ _ _ _ _ heq
      rw [he'] at h
      exact @head_of_data_ne _ _ 'F' 'N' (dl_msg_head e') (by decide)
        (by decide) h
    · split
      · intro h
        simp at h
      · intro h
        simp only [Except.error.injEq] at h
        exact @head_of_data_ne _ _ 'F' 'N' (verify_msg_head _) (by decide)
          (by decide) h

/-- The first event of every `downloadFirmware` call is the
Downloading-session write. -/
theorem downloadFirmware_events_head (env : OtaEnv) (s : OtaState)
    (d : String) (fw : FirmwareVersion) (now : Int) :
    ∃ info evs, (downloadFirmware env s d fw now).2.2 =
        OtaEvent.write d info :: evs ∧
      info.status = OtaUpdateStatus.Downloading := by
  simp only [downloadFirmware]
  split
  · exact ⟨_, [], rfl, rfl⟩
  · split
    · exact ⟨_, _, rfl, rfl⟩
    · split
      · exact ⟨_, _, rfl, rfl⟩
      · exact ⟨_, _, rfl, rfl⟩

/-- `performUpdate` branches only on whether `checkForUpdate` returned a
version. -/
theorem performUpdate_eq (env : OtaEnv) (s : OtaState) (d cv : String)
    (now : Int) :
    performUpdate env s d cv now =
      match (checkForUpdate s d cv now).1 with
      | none => (.error "No update available",
          (checkForUpdate s d cv now).2.1, (checkForUpdate s d cv now).2.2)
      | some fw =>
          ((downloadFirmware env (checkForUpdate s d cv now).2.1 d fw now).1,
            (downloadFirmware env (checkForUpdate s d cv now).2.1 d fw
              now).2.1,
            (checkForUpdate s d cv now).2.2 ++
              (downloadFirmware env (checkForUpdate s d cv now).2.1 d fw
                now).2.2) := rfl

/-- C2 (amended): `performUpdate(deviceId, currentVersion)` throws the
`'No update available'` precondition error exactly when the catalog
resolves no latest version (empty catalog); whenever any latest version
resolves, it proceeds to `downloadFirmware` on it *regardless of the
version comparison* — `checkForUpdate` returns the resolved latest even
when `needsUpdate` is false, and `performUpdate` only checks it for null —
so a download (beginning with the Downloading session write) occurs even
when the resolved version is not strictly newer than `currentVersion`. -/
theorem performUpdate_downloads_iff_latest (env : OtaEnv) (s : OtaState)
    (d cv : String) (now : Int) :
    ((performUpdate env s d cv now).1 = .error "No update available" ↔
      getLatestVersion s.versions = none) ∧
    (∀ fw, getLatestVersion s.versions = some fw →
      (performUpdate env s d cv now).1 =
        (downloadFirmware env (checkForUpdate s d cv now).2.1 d fw now).1 ∧
      ∃ info evs, (performUpdate env s d cv now).2.2 =
          (checkForUpdate s d cv now).2.2 ++
            (OtaEvent.write d info :: evs) ∧
        info.status = OtaUpdateStatus.Downloading) := by
  have hc1 : (checkForUpdate s d cv now).1 = getLatestVersion s.versions := by
    rw [checkForUpdate_fst, needsUpdate_latestVersion]
  constructor
  · constructor
    · intro h
      cases hl : getLatestVersion s.versions with
      | none => rfl
      | some fw =>
          exfalso
          rw [performUpdate_eq, hc1, hl] at h
          exact downloadFirmware_error_ne_noupdate env _ d fw now h
    · intro hl
      rw [performUpdate_eq, hc1, hl]
  · intro fw hl
    rw [performUpdate_eq, hc1, hl]
    obtain ⟨info, evs, he, hst⟩ :=
      downloadFirmware_events_head env (checkForUpdate s d cv now).2.1 d fw now
    refine ⟨rfl, info, evs, ?_, hst⟩
    show (checkForUpdate s d cv now).2.2 ++
        (downloadFirmware env (checkForUpdate s d cv now).2.1 d fw now).2.2 =
      (checkForUpdate s d cv now).2.2 ++ (OtaEvent.write d info :: evs)
    rw [he]

/-- Witness for the amended C2 theorem: the catalog resolves `1.0.0` as
latest while the device runs `2.0.0`, and the download phase begins
anyway. -/
theorem performUpdate_downloads_iff_latest_witness :
    getLatestVersion stateOld.versions = some fwOld ∧
    ((performUpdate envSample stateOld "dev" "2.0.0" 5).1 =
        (downloadFirmware envSample
          (checkForUpdate stateOld "dev" "2.0.0" 5).2.1 "dev" fwOld 5).1 ∧
      ∃ info evs, (performUpdate envSample stateOld "dev" "2.0.0" 5).2.2 =
          (checkForUpdate stateOld "dev" "2.0.0" 5).2.2 ++
            (OtaEvent.write "dev" info :: evs) ∧
        info.status = OtaUpdateStatus.Downloading) :=
  ⟨rfl, (performUpdate_downloads_iff_latest envSample stateOld "dev"
    "2.0.0" 5).2 fwOld rfl⟩

/-! ## The Completed-only-after-clean-verification invariant

`C1ok d tr` is the shape invariant of orchestrator event traces for a
device `d`: every event is either benign — a session write that is not a
Completed write for `d`, or a verification event, or a delivery for some
other device — or part of the success block `verified d b fw [] ::
write d (Completed) :: delivered d b`, which `downloadFirmware` emits only
when `verifyIntegrity` returned no errors. -/



theorem c1ok_append {d : String} : ∀ {A B : List OtaEvent},
    C1ok d A → C1ok d B → C1ok d (A ++ B) := by
  intro A B hA hB
  induction hA with
  | nil => exact hB
  | benign hbe _ ih => exact C1ok.benign hbe ih
  | block hst _ ih => exact C1ok.block hst ih

theorem c1ok_of_benign (d : String) : ∀ tr : List OtaEvent,
    (∀ e ∈ tr, benignE d e) → C1ok d tr := by
  intro tr
  induction tr with
  | nil => intro _; exact C1ok.nil
  | cons e rest ih =>
      intro h
      exact C1ok.benign (h e (List.mem_cons_self e rest))
        (ih fun e' he' => h e' (List.mem_cons_of_mem e he'))

/-- In a `C1ok` trace, every Completed write for `d` is immediately
preceded by a clean verification of the very bytes that are delivered
immediately after it. -/
theorem c1ok_completed_write (d : String) : ∀ tr, C1ok d tr → ∀ i info,
    tr.get? i = some (OtaEvent.write d info) →
    info.status = OtaUpdateStatus.Completed →
    1 ≤ i ∧ ∃ b fw, tr.get? (i - 1) = some (OtaEvent.verified d b fw []) ∧
      tr.get? (i + 1) = some (OtaEvent.delivered d b) := by
  intro tr h
  induction h with
  | nil => intro i info hi; cases hi
  | benign hbe _ ih =>
      intro i info hi hC
      cases i with
      | zero =>
          rw [List.get?_cons_zero, Option.some_inj] at hi
          subst hi
          exact absurd hC (hbe rfl)
      | succ j =>
          rw [List.get?_cons_succ] at hi
          obtain ⟨hj, b, fw, hv, hd⟩ := ih j info hi hC
          obtain ⟨k, rfl⟩ : ∃ k, j = k + 1 := ⟨j - 1, by omega⟩
          exact ⟨by omega, b, fw, hv, hd⟩
  | block hst _ ih =>
      intro i info hi hC
      cases i with
      | zero => cases hi
      | succ j =>
          cases j with
          | zero =>
              rw [List.get?_cons_succ, List.get?_cons_zero,
                Option.some_inj] at hi
              injection hi with h1 h2
              subst h2
              exact ⟨by omega, _, _, rfl, rfl⟩
          | succ k =>
              cases k with
              | zero => cases hi
              | succ m =>
                  rw [List.get?_cons_succ, List.get?_cons_succ,
                    List.get?_cons_succ] at hi
                  obtain ⟨hm, b, fw, hv, hd⟩ := ih m info hi hC
                  obtain ⟨n, rfl⟩ : ∃ n, m = n + 1 := ⟨m - 1, by omega⟩
                  exact ⟨by omega, b, fw, hv, hd⟩

/-- In a `C1ok` trace, every delivery for `d` is immediately preceded by
the Completed write and, before it, a clean verification of the same
bytes. -/
theorem c1ok_delivered (d : String) : ∀ tr, C1ok d tr → ∀ i b,
    tr.get? i = some (OtaEvent.delivered d b) →
    2 ≤ i ∧ ∃ fw info,
      tr.get? (i - 2) = some (OtaEvent.verified d b fw []) ∧
      tr.get? (i - 1) = some (OtaEvent.write d info) ∧
      info.status = OtaUpdateStatus.Completed := by
  intro tr h
  induction h with
  | nil => intro i b hi; cases hi
  | benign hbe _ ih =>
      intro i b hi
      cases i with
      | zero =>
          rw [List.get?_cons_zero, Option.some_inj] at hi
          subst hi
          exact absurd rfl hbe
      | succ j =>
          rw [List.get?_cons_succ] at hi
          obtain ⟨hj, fw, info, hv, hw, hst⟩ := ih j b hi
          obtain ⟨k, rfl⟩ : ∃ k, j = k + 1 := ⟨j - 1, by omega⟩
          obtain ⟨m, rfl⟩ : ∃ m, k = m + 1 := ⟨k - 1, by omega⟩
          exact ⟨by omega, fw, info, hv, hw, hst⟩
  | block hst' _ ih =>
      intro i b hi
      cases i with
      | zero => cases hi
      | succ j =>
          cases j with
          | zero => cases hi
          | succ k =>
              cases k with
              | zero =>
                  rw [List.get?_cons_succ, List.get?_cons_succ,
                    List.get?_cons_zero, Option.some_inj] at hi
                  injection hi with h1 h2
                  subst h2
                  exact ⟨by omega, _, _, rfl, rfl, hst'⟩
              | succ m =>
                  rw [List.get?_cons_succ, List.get?_cons_succ,
                    List.get?_cons_succ] at hi
                  obtain ⟨hm, fw, info, hv, hw, hstC⟩ := ih m b hi
                  obtain ⟨n, rfl⟩ : ∃ n, m = n + 1 := ⟨m - 1, by omega⟩
                  obtain ⟨p, rfl⟩ : ∃ p, n = p + 1 := ⟨n - 1, by omega⟩
                  exact ⟨by omega, fw, info, hv, hw, hstC⟩

/-- `valid` holds exactly when the error list is empty. -/
theorem verifyIntegrity_valid_iff (md5 sha256 : Bytes → String)
    (bytes : Bytes) (fw : FirmwareVersion) :
    (verifyIntegrity md5 sha256 bytes fw).valid = true ↔
      (verifyIntegrity md5 sha256 bytes fw).errors = [] := by
  have hv : (verifyIntegrity md5 sha256 bytes fw).valid =
      ((verifyIntegrity md5 sha256 bytes fw).errors.length == 0) := rfl
  rw [hv]
  simp [List.length_eq_zero]

/-- Every event of `checkForUpdate` is benign: it writes only Checking and
Idle session records. -/
theorem c1ok_check (d : String) (s : OtaState) (d' cv : String) (now : Int) :
    C1ok d (checkForUpdate s d' cv now).2.2 := by
  refine c1ok_of_benign d _ ?_
  intro e he
  simp only [checkForUpdate, List.mem_cons, List.not_mem_nil, or_false] at he
  rcases he with rfl | rfl
  · intro _ hC
    exact (by decide :
      OtaUpdateStatus.Checking ≠ OtaUpdateStatus.Completed) hC
  · intro _ hC
    revert hC
    split <;> exact fun hC =>
      (by decide : OtaUpdateStatus.Idle ≠ OtaUpdateStatus.Completed) hC

/-- Every event of `cancelUpdate` is benign: its only write is Failed. -/
theorem c1ok_cancel (d : String) (s : OtaState) (d' : String) :
    C1ok d (cancelUpdate s d').2 := by
  refine c1ok_of_benign d _ ?_
  intro e he
  simp only [cancelUpdate] at he
  cases hq : jsMapGet s.updates d' with
  | none => rw [hq] at he; simp at he
  | some j =>
      rw [hq] at he
      by_cases hst : j.status = OtaUpdateStatus.Downloading
      · simp only [if_pos hst, List.mem_cons, List.not_mem_nil,
          or_false] at he
        subst he
        intro _ hC
        exact (by decide :
          OtaUpdateStatus.Failed ≠ OtaUpdateStatus.Completed) hC
      · simp only [if_neg hst] at he
        simp at he

/-- The Downloading write and the progress ticks are benign. -/
theorem benign_evs0 (d d' : String) (info1 : OtaUpdateInfo)
    (hst : info1.status = OtaUpdateStatus.Downloading)
    (evs : List DownloadProgress) :
    ∀ e ∈ OtaEvent.write d' info1 ::
        (progressInfos info1 evs).map (OtaEvent.write d'), benignE d e := by
  intro e he
  rcases List.mem_cons.mp he with rfl | he
  · intro _ hC
    rw [hst] at hC
    exact (by decide :
      OtaUpdateStatus.Downloading ≠ OtaUpdateStatus.Completed) hC
  · rcases List.mem_map.mp he with ⟨i, hi, rfl⟩
    intro _ hC
    rw [(progressInfos_fields evs info1 i hi).2.2.1, hst] at hC
    exact (by decide :
      OtaUpdateStatus.Downloading ≠ OtaUpdateStatus.Completed) hC

/-- The trace of one `downloadFirmware` call satisfies the invariant: its
Completed write appears only inside the success block, guarded by the
empty error list of `verifyIntegrity`. -/
theorem c1ok_download (d : String) (env : OtaEnv) (s : OtaState)
    (d' : String) (fw : FirmwareVersion) (now : Int) :
    C1ok d (downloadFirmware env s d' fw now).2.2 := by
  simp only [downloadFirmware]
  split
  · refine c1ok_of_benign d _ ?_
    intro e he
    simp only [List.mem_cons, List.not_mem_nil, or_false] at he
    subst he
    intro _ hC
    exact (by decide :
      OtaUpdateStatus.Downloading ≠ OtaUpdateStatus.Completed) hC
  · split
    · -- transport failure: Downloading write, ticks, one Failed write
      refine c1ok_of_benign d _ ?_
      intro e he
      rcases List.mem_append.mp he with he | he
      · exact benign_evs0 d d' _ rfl _ e he
      · simp only [List.mem_cons, List.not_mem_nil, or_false] at he
        subst he
        intro _ hC
        exact (by decide :
          OtaUpdateStatus.Failed ≠ OtaUpdateStatus.Completed) hC
    · rename_i buffer heq
      split
      · -- verification passed: benign prefix, then the success block
        rename_i hvd
        rw [(verifyIntegrity_valid_iff env.md5 env.sha256 buffer fw).mp hvd]
        by_cases hd : d' = d
        · subst hd
          refine c1ok_append (c1ok_of_benign _ _ (benign_evs0 _ _ _ rfl _)) ?_
          refine C1ok.benign ?_ (C1ok.block rfl C1ok.nil)
          intro _ hC
          exact (by decide :
            OtaUpdateStatus.Verifying ≠ OtaUpdateStatus.Completed) hC
        · refine c1ok_of_benign d _ ?_
          intro e he
          rcases List.mem_append.mp he with he | he
          · exact benign_evs0 d d' _ rfl _ e he
          · simp only [List.mem_cons, List.not_mem_nil, or_false] at he
            rcases he with rfl | rfl | rfl | rfl
            · intro hd' _; exact hd hd'
            · trivial
            · intro hd' _; exact hd hd'
            · exact hd
      · -- verification failed: everything benign (two Failed writes)
        refine c1ok_of_benign d _ ?_
        intro e he
        rcases List.mem_append.mp he with he | he
        · exact benign_evs0 d d' _ rfl _ e he
        · simp only [List.mem_cons, List.not_mem_nil, or_false] at he
          rcases he with rfl | rfl | rfl | rfl
          · intro _ hC
            exact (by decide :
              OtaUpdateStatus.Verifying ≠ OtaUpdateStatus.Completed) hC
          · trivial
          · intro _ hC
            exact (by decide :
              OtaUpdateStatus.Failed ≠ OtaUpdateStatus.Completed) hC
          · intro _ hC
            exact (by decide :
              OtaUpdateStatus.Failed ≠ OtaUpdateStatus.Completed) hC

/-- Every single operation emits an invariant-respecting trace. -/
theorem c1ok_runOp (d : String) (env : OtaEnv) (s : OtaState) (op : OtaOp) :
    C1ok d (runOp env s op).2 := by
  cases op with
  | register v fw => exact C1ok.nil
  | check d' cv now => exact c1ok_check d s d' cv now
  | dlfw d' fw now => exact c1ok_download d env s d' fw now
  | perform d' cv now =>
      show C1ok d (performUpdate env s d' cv now).2.2
      rw [performUpdate_eq]
      cases hl : (checkForUpdate s d' cv now).1 with
      | none => exact c1ok_check d s d' cv now
      | some fw =>
          exact c1ok_append (c1ok_check d s d' cv now)
            (c1ok_download d env _ d' fw now)
  | cancel d' => exact c1ok_cancel d s d'
  | clear d' => exact C1ok.nil
  | evictCache => exact C1ok.nil

theorem runOps_cons (env : OtaEnv) (s : OtaState) (op : OtaOp)
    (ops : List OtaOp) :
    runOps env s (op :: ops) =
      ((runOps env (runOp env s op).1 ops).1,
        (runOp env s op).2 ++ (runOps env (runOp env s op).1 ops).2) := rfl

/-- Every operation sequence emits an invariant-respecting trace. -/
theorem c1ok_runOps (d : String) (env : OtaEnv) : ∀ (ops : List OtaOp)
    (s : OtaState), C1ok d (runOps env s ops).2 := by
  intro ops
  induction ops with
  | nil => intro s; exact C1ok.nil
  | cons op rest ih =>
      intro s
      rw [runOps_cons]
      exact c1ok_append (c1ok_runOp d env s op) (ih (runOp env s op).1)

/-- C1: over every operation sequence against an `OtaManager` (from any
starting state) and every device, a session write with status Completed
occurs in the event trace only immediately after a `verifyIntegrity` event
for that device whose error list is empty, and the bytes delivered
(returned) to the caller are exactly the bytes that clean verification
checked — bytes are never delivered, and Completed is never written,
without an immediately preceding zero-error verification. -/
theorem ota_completed_only_after_clean_verification (env : OtaEnv)
    (s : OtaState) (ops : List OtaOp) (d : String) :
    (∀ i info,
      (runOps env s ops).2.get? i = some (OtaEvent.write d info) →
      info.status = OtaUpdateStatus.Completed →
      1 ≤ i ∧ ∃ b fw,
        (runOps env s ops).2.get? (i - 1) =
          some (OtaEvent.verified d b fw []) ∧
        (runOps env s ops).2.get? (i + 1) =
          some (OtaEvent.delivered d b)) ∧
    (∀ i b,
      (runOps env s ops).2.get? i = some (OtaEvent.delivered d b) →
      2 ≤ i ∧ ∃ fw info,
        (runOps env s ops).2.get? (i - 2) =
          some (OtaEvent.verified d b fw []) ∧
        (runOps env s ops).2.get? (i - 1) =
          some (OtaEvent.write d info) ∧
        info.status = OtaUpdateStatus.Completed) :=
  ⟨c1ok_completed_write d _ (c1ok_runOps d env ops s),
    c1ok_delivered d _ (c1ok_runOps d env ops s)⟩

/-- Witness for the C1 theorem: in the sample run's trace the Completed
write sits at index 6, the clean verification at 5, the delivery at 7. -/
theorem ota_completed_only_after_clean_verification_witness :
    (traceSample.get? 6 = some (OtaEvent.write "dev" infoDone) ∧
      infoDone.status = OtaUpdateStatus.Completed) ∧
    (1 ≤ 6 ∧ ∃ b fw,
      traceSample.get? 5 = some (OtaEvent.verified "dev" b fw []) ∧
      traceSample.get? 7 = some (OtaEvent.delivered "dev" b)) :=
  ⟨⟨rfl, rfl⟩, (ota_completed_only_after_clean_verification envSample
    initialOtaState opsSample "dev").1 6 infoDone rfl rfl⟩
